import Mathlib

/-! resty: action dispatch and response negotiation

A shallow embedding of `common.go` and `validators.go`.

* Go `string` values are Lean `String`s (valid UTF-8 text); `[]byte` values and
  response bodies are lists of byte values, `bytes s` being `[]byte(s)`.
* The `http.ResponseWriter` handed to the dispatcher is modelled by the
  recording writer used in the repository's tests (`httptest.ResponseRecorder`):
  a live header map, the status fixed by the first `WriteHeader`, an implicit
  `WriteHeader(200)` on the first `Write`, and an append-only body.  `WriteHeader`
  panics on a status code outside 100..999, as the writers of `net/http` do; the
  panic is recorded in the writer, and no later call on a panicked writer has an
  effect, since the panic unwinds the handler.
* The process-wide `validators` map is passed explicitly as a `Registry`.
* Calls of validation steps, of `Errors.AddError`, of the action and of
  `log.Printf` are recorded in a trace of `Event`s.
-/

namespace Resty

/-! ## Bytes and text -/

/-- A Go byte slice; each element stands for one byte. -/
abbrev Bytes := List Nat

/-- The UTF-8 encoding of one code point. -/
def utf8EncodeChar (c : Char) : Bytes :=
  let v := c.toNat
  if v < 0x80 then [v]
  else if v < 0x800 then [0xC0 + v / 64, 0x80 + v % 64]
  else if v < 0x10000 then [0xE0 + v / 4096, 0x80 + v / 64 % 64, 0x80 + v % 64]
  else [0xF0 + v / 262144, 0x80 + v / 4096 % 64, 0x80 + v / 64 % 64, 0x80 + v % 64]

/-- The bytes of a list of code points. -/
def utf8Encode : List Char → Bytes
  | [] => []
  | c :: cs => utf8EncodeChar c ++ utf8Encode cs

/-- The conversion `[]byte(s)`. -/
def bytes (s : String) : Bytes := utf8Encode s.data

/-- The table `asciiSpace` of package `strings`. -/
def asciiSpace (b : Nat) : Bool :=
  b == 9 || b == 10 || b == 11 || b == 12 || b == 13 || b == 32

/-- The function `strings.TrimSpace` on its ASCII path, which `checkResponseBody` of the
tests applies to the recorded body before comparing. -/
def TrimSpace (b : Bytes) : Bytes :=
  ((b.dropWhile asciiSpace).reverse.dropWhile asciiSpace).reverse

/-! ## Errors -/

/-- A non-nil Go `error` value: the sentinel `io.EOF` or any other error, by its message. -/
inductive Error where
  | EOF
  | msg (text : String)
  deriving DecidableEq, Repr

/-- A Go `error`; `none` is `nil`. -/
abbrev GoError := Option Error

/-! ## net/http: status texts, headers, the response recorder -/

/-- The function `http.StatusText`. -/
def StatusText (code : Int) : String :=
  if code = 100 then "Continue"
  else if code = 101 then "Switching Protocols"
  else if code = 102 then "Processing"
  else if code = 103 then "Early Hints"
  else if code = 200 then "OK"
  else if code = 201 then "Created"
  else if code = 202 then "Accepted"
  else if code = 203 then "Non-Authoritative Information"
  else if code = 204 then "No Content"
  else if code = 205 then "Reset Content"
  else if code = 206 then "Partial Content"
  else if code = 207 then "Multi-Status"
  else if code = 208 then "Already Reported"
  else if code = 226 then "IM Used"
  else if code = 300 then "Multiple Choices"
  else if code = 301 then "Moved Permanently"
  else if code = 302 then "Found"
  else if code = 303 then "See Other"
  else if code = 304 then "Not Modified"
  else if code = 305 then "Use Proxy"
  else if code = 307 then "Temporary Redirect"
  else if code = 308 then "Permanent Redirect"
  else if code = 400 then "Bad Request"
  else if code = 401 then "Unauthorized"
  else if code = 402 then "Payment Required"
  else if code = 403 then "Forbidden"
  else if code = 404 then "Not Found"
  else if code = 405 then "Method Not Allowed"
  else if code = 406 then "Not Acceptable"
  else if code = 407 then "Proxy Authentication Required"
  else if code = 408 then "Request Timeout"
  else if code = 409 then "Conflict"
  else if code = 410 then "Gone"
  else if code = 411 then "Length Required"
  else if code = 412 then "Precondition Failed"
  else if code = 413 then "Request Entity Too Large"
  else if code = 414 then "Request URI Too Long"
  else if code = 415 then "Unsupported Media Type"
  else if code = 416 then "Requested Range Not Satisfiable"
  else if code = 417 then "Expectation Failed"
  else if code = 418 then "I\x27m a teapot"
  else if code = 421 then "Misdirected Request"
  else if code = 422 then "Unprocessable Entity"
  else if code = 423 then "Locked"
  else if code = 424 then "Failed Dependency"
  else if code = 425 then "Too Early"
  else if code = 426 then "Upgrade Required"
  else if code = 428 then "Precondition Required"
  else if code = 429 then "Too Many Requests"
  else if code = 431 then "Request Header Fields Too Large"
  else if code = 451 then "Unavailable For Legal Reasons"
  else if code = 500 then "Internal Server Error"
  else if code = 501 then "Not Implemented"
  else if code = 502 then "Bad Gateway"
  else if code = 503 then "Service Unavailable"
  else if code = 504 then "Gateway Timeout"
  else if code = 505 then "HTTP Version Not Supported"
  else if code = 506 then "Variant Also Negotiates"
  else if code = 507 then "Insufficient Storage"
  else if code = 508 then "Loop Detected"
  else if code = 510 then "Not Extended"
  else if code = 511 then "Network Authentication Required"
  else ""

/-- An `http.Header` restricted to single-valued entries under canonical keys, which is
all that `Set`, `Del` and `Get` on the keys used here can produce. -/
abbrev Header := String → Option String

/-- The method `Header.Set`. -/
def Header.Set (h : Header) (key value : String) : Header :=
  fun k => if k = key then some value else h k

/-- The method `Header.Del`. -/
def Header.Del (h : Header) (key : String) : Header :=
  fun k => if k = key then none else h k

/-- The method `Header.Get`: the value, or the empty string when the key is absent. -/
def Header.Get (h : Header) (key : String) : String :=
  (h key).getD ""

/-- The type `httptest.ResponseRecorder`, with one field added: `panicked` holds the panic
value once `WriteHeader` has panicked.  The panic unwinds the handler, so every later
operation leaves a panicked recorder as it is. -/
structure ResponseRecorder where
  Code : Int
  HeaderMap : Header
  Body : Bytes
  wroteHeader : Bool
  snapHeader : Option Header
  panicked : Option String

/-- The function `httptest.NewRecorder`. -/
def NewRecorder : ResponseRecorder :=
  { Code := 200, HeaderMap := fun _ => none, Body := [], wroteHeader := false,
    snapHeader := none, panicked := none }

/-- The method `WriteHeader`: a call after the first is ignored; otherwise
`checkWriteHeaderCode` panics on a code below 100 or above 999, and a valid code fixes the
status and snapshots the headers. -/
def ResponseRecorder.WriteHeader (rw : ResponseRecorder) (code : Int) : ResponseRecorder :=
  if rw.panicked.isSome then rw
  else if rw.wroteHeader then rw
  else if code < 100 ∨ code > 999 then
    { rw with panicked := some ("invalid WriteHeader code " ++ toString code) }
  else { rw with Code := code, wroteHeader := true, snapHeader := some rw.HeaderMap }

/-- The header update `rw.Header().Set(key, value)` on the live header map. -/
def ResponseRecorder.SetHeader (rw : ResponseRecorder) (key value : String) :
    ResponseRecorder :=
  if rw.panicked.isSome then rw
  else { rw with HeaderMap := rw.HeaderMap.Set key value }

/-- The header update `rw.Header().Del(key)` on the live header map. -/
def ResponseRecorder.DelHeader (rw : ResponseRecorder) (key : String) : ResponseRecorder :=
  if rw.panicked.isSome then rw
  else { rw with HeaderMap := rw.HeaderMap.Del key }

/-- The method `Write`: when no header was written yet, a missing `Content-Type` is
sniffed from the data and `WriteHeader(200)` is implied; the data is appended to the
body.  `DetectContentType` is `http.DetectContentType`. -/
def ResponseRecorder.Write (DetectContentType : Bytes → String) (rw : ResponseRecorder)
    (buf : Bytes) : ResponseRecorder :=
  if rw.panicked.isSome then rw
  else
    let rw1 :=
      if rw.wroteHeader then rw
      else
        let hasType := (rw.HeaderMap "Content-Type").isSome
        let hasTE := rw.HeaderMap.Get "Transfer-Encoding" != ""
        let rw0 :=
          if !hasType && !hasTE then rw.SetHeader "Content-Type" (DetectContentType buf)
          else rw
        rw0.WriteHeader 200
    { rw1 with Body := rw1.Body ++ buf }

/-- The response a recorder generated, as `ResponseRecorder.Result` reports it. -/
structure Response where
  StatusCode : Int
  Header : Header
  Body : Bytes

/-- The method `ResponseRecorder.Result`. -/
def ResponseRecorder.Result (rw : ResponseRecorder) : Response :=
  { StatusCode := if rw.Code = 0 then 200 else rw.Code,
    Header := rw.snapHeader.getD rw.HeaderMap,
    Body := rw.Body }

/-- The function `http.Error`. -/
def httpError (DetectContentType : Bytes → String) (w : ResponseRecorder) (error : String)
    (code : Int) : ResponseRecorder :=
  let w := w.DelHeader "Content-Length"
  let w := w.SetHeader "Content-Type" "text/plain; charset=utf-8"
  let w := w.SetHeader "X-Content-Type-Options" "nosniff"
  let w := w.WriteHeader code
  w.Write DetectContentType (bytes (error ++ "\n"))

/-! ## io: readers and `io.Copy` -/

/-- One outcome of `Read` that a reader has in store: the bytes it delivers and the error
it reports with them. -/
structure ReadStep where
  data : Bytes
  err : GoError

/-- An `io.Reader`, by the outcomes its successive `Read` calls produce; once they are
used up it reports `io.EOF`. -/
abbrev Reader := List ReadStep

/-- The method `Read` with a buffer of `n` bytes: the bytes placed in the buffer, the error,
and the reader afterwards.  A step larger than the buffer is delivered in parts. -/
def Reader.Read : Reader → Nat → Bytes × GoError × Reader
  | [], _ => ([], some Error.EOF, [])
  | s :: rest, n =>
    if s.data.length ≤ n then (s.data, s.err, rest)
    else (s.data.take n, none, { s with data := s.data.drop n } :: rest)

/-- Every byte the reader delivers, in order, up to its first error. -/
def Reader.content : Reader → Bytes
  | [] => []
  | s :: rest =>
    match s.err with
    | none => s.data ++ Reader.content rest
    | some _ => s.data

/-- The function `io.Copy(w, reader)`: every non-empty read is passed to `Write`, until a
read reports an error or `io.EOF`.  (The size of the copy buffer only decides how the same
bytes are split over consecutive `Write` calls.) -/
def ioCopy (DetectContentType : Bytes → String) (w : ResponseRecorder) :
    Reader → ResponseRecorder
  | [] => w
  | s :: rest =>
    let w1 := if s.data.length > 0 then w.Write DetectContentType s.data else w
    match s.err with
    | none => ioCopy DetectContentType w1 rest
    | some _ => w1

/-! ## encoding/json -/

/-- The escape `\u00XX` of a byte below 0x80. -/
def jsonHexEscape (v : Nat) : String :=
  "\\u00" ++ String.mk [Nat.digitChar (v / 16), Nat.digitChar (v % 16)]

/-- How the encoder (HTML escaping on, as `json.NewEncoder` has it) writes one code point
inside a string literal. -/
def jsonEscapeChar (c : Char) : String :=
  let v := c.toNat
  if v = 34 then "\\\""
  else if v = 92 then "\\\\"
  else if v = 8 then "\\b"
  else if v = 12 then "\\f"
  else if v = 10 then "\\n"
  else if v = 13 then "\\r"
  else if v = 9 then "\\t"
  else if v < 32 || v = 38 || v = 60 || v = 62 then jsonHexEscape v
  else if v = 0x2028 then "\\u2028"
  else if v = 0x2029 then "\\u2029"
  else String.mk [c]

/-- The JSON string literal for a Go string. -/
def jsonString (s : String) : String :=
  "\"" ++ String.join (s.data.map jsonEscapeChar) ++ "\""

/-- The result of calling a `func() (contenType string, contentLength uint64, reader io.Reader)`. -/
structure ResourceFunc where
  contenType : String
  contentLength : Nat
  reader : Reader

/-- A handler result whose dynamic type is none of `string`, the unnamed resource function
type, or an `io.Reader`, as far as `encoding/json` looks at it: `null` is a nil pointer, map
or slice, `object` lists struct fields in declaration order or map entries in sorted key
order, `resourceFunc` is a function value of the named type `resty.ResourceFunc`, and
`unsupported` is any other function, channel or complex value.  (Floating-point numbers and
custom marshalers are not modelled.) -/
inductive GoValue where
  | null
  | bool (b : Bool)
  | int (i : Int)
  | str (s : String)
  | array (items : List GoValue)
  | object (fields : List (String × GoValue))
  | resourceFunc (f : ResourceFunc)
  | unsupported

mutual
/-- The function `json.Marshal`; `none` is an `UnsupportedTypeError`. -/
def marshal : GoValue → Option String
  | .null => some "null"
  | .bool b => some (if b then "true" else "false")
  | .int i => some (toString i)
  | .str s => some (jsonString s)
  | .array items =>
    (marshalItems items).map fun xs => "[" ++ ",".intercalate xs ++ "]"
  | .object fields =>
    (marshalFields fields).map fun xs => "\x7b" ++ ",".intercalate xs ++ "\x7d"
  | .resourceFunc _ => none
  | .unsupported => none
/-- The encodings of the elements of a slice. -/
def marshalItems : List GoValue → Option (List String)
  | [] => some []
  | v :: rest =>
    match marshal v, marshalItems rest with
    | some a, some b => some (a :: b)
    | _, _ => none
/-- The encodings of the members of a struct or map. -/
def marshalFields : List (String × GoValue) → Option (List String)
  | [] => some []
  | (k, v) :: rest =>
    match marshal v, marshalFields rest with
    | some a, some b => some ((jsonString k ++ ":" ++ a) :: b)
    | _, _ => none
end

/-- The call `json.NewEncoder(w).Encode(v)`, given the marshalling of `v`: on success the
text and a newline go to `w` in one `Write`; on an encoding error nothing is written (the
callers drop the returned error). -/
def jsonEncode (DetectContentType : Bytes → String) (w : ResponseRecorder)
    (encoded : Option String) : ResponseRecorder :=
  match encoded with
  | some text => w.Write DetectContentType (bytes (text ++ "\n"))
  | none => w

/-! ## common.go: types -/

/-- The request context handed to actions and validation steps. -/
structure Context where
  Done : Bool

/-- The inbound request as the mux exposes it: path parameters, query values, context. -/
structure Request where
  Params : String → String
  Form : String → List String
  ctx : Context

/-- The interface `ParamHandler` as a record of its read-only methods (`ScanBody` is not
modelled). -/
structure ParamHandler where
  Param : String → String
  Query : String → String
  Queries : String → List String

/-- The request-backed implementation `paramHandler` of request.go. -/
def paramHandler (r : Request) : ParamHandler :=
  { Param := r.Params,
    Query := fun key => (r.Form key).headD "",
    Queries := r.Form }

/-- The struct `errorsList`. -/
structure errorsList where
  Errors : List String

/-- The method `AddError`. -/
def errorsList.AddError (el : errorsList) (err : String) : errorsList :=
  { Errors := el.Errors ++ [err] }

/-- The method `HasError`. -/
def errorsList.HasError (el : errorsList) : Bool :=
  el.Errors.length > 0

/-- The function `NewErrors`. -/
def NewErrors (errs : List String) : errorsList :=
  { Errors := [] ++ errs }

/-- The result value of an action, by dynamic type: `nil`, a `string`, a value of the
unnamed type `func() (contenType string, contentLength uint64, reader io.Reader)`, an
`io.Reader`, or any other value. -/
inductive Result where
  | nil
  | string (s : String)
  | func (resource : ResourceFunc)
  | reader (r : Reader)
  | other (v : GoValue)

/-- What is observed of a request being served. -/
inductive Event where
  | validatorCalled (ptr : Nat)
  | addErrorCalled (err : String)
  | actionCalled (ptr : Nat)
  | logPrintf (format : String)
  deriving DecidableEq, Repr

/-- The body of a validation step as far as it acts on the `Errors` value it is given:
it returns an error, or calls `AddError` and goes on, or calls `HasError` and goes on
according to the answer. -/
inductive Validation where
  | ret (err : GoError)
  | AddError (err : String) (next : Validation)
  | HasError (next : Bool → Validation)

/-- A `ValidationFunk` value: its code pointer and what a call does. -/
structure ValidationFunk where
  ptr : Nat
  call : ParamHandler → Context → Validation

/-- An `ActionFunc` value: its code pointer (0 for a nil function) and what a call
returns. -/
structure ActionFunc where
  ptr : Nat
  call : ParamHandler → Context → Result × Int × GoError

/-! ## validators.go -/

/-- The map `validators`; a key is absent (`none`) or bound to a non-nil slice. -/
abbrev Registry := String → Option (List ValidationFunk)

/-- The map before any registration. -/
def Registry.empty : Registry := fun _ => none

/-- The assignment `validators[key] = value`. -/
def Registry.set (validators : Registry) (key : String) (value : List ValidationFunk) :
    Registry :=
  fun k => if k = key then some value else validators k

/-- The function `toActionKey`: `fmt.Sprintf("%#v", f)` renders a function value as its
type and code pointer. -/
def toActionKey (f : ActionFunc) : String :=
  if f.ptr = 0 then "(resty.ActionFunc)(nil)"
  else "(resty.ActionFunc)(0x" ++ String.mk (Nat.toDigits 16 f.ptr) ++ ")"

/-- The function `getValidators`; `none` is the nil slice. -/
def getValidators (validators : Registry) (action : ActionFunc) :
    Option (List ValidationFunk) :=
  let key := toActionKey action
  match validators key with
  | some validationHandlerFunk => some validationHandlerFunk
  | none => none

/-- The function `AddValidator`. -/
def AddValidator (validators : Registry) (action : ActionFunc)
    (validationFunk : ValidationFunk) : Registry :=
  let key := toActionKey action
  let validators :=
    match validators key with
    | some _ => validators
    | none => validators.set key []
  validators.set key ((validators key).getD [] ++ [validationFunk])

/-! ## common.go: validation and dispatch -/

/-- A call of a validation step on the collector `el`: the error it returns, the collector
afterwards, and the `AddError` calls it made. -/
def Validation.run : Validation → errorsList → GoError × errorsList × List Event
  | .ret err, el => (err, el, [])
  | .AddError err next, el =>
    let (e, el1, tr) := next.run (el.AddError err)
    (e, el1, Event.addErrorCalled err :: tr)
  | .HasError next, el => (next el.HasError).run el

/-- The loop `for _, validator := range validators` of `validate`, up to its early return:
the error that ended it (`none` when every step returned nil), the collector, the trace. -/
def validateLoop (ph : ParamHandler) (ctx : Context) :
    List ValidationFunk → errorsList → GoError × errorsList × List Event
  | [], el => (none, el, [])
  | validator :: rest, el =>
    match (validator.call ph ctx).run el with
    | (some err, el1, tr) => (some err, el1, Event.validatorCalled validator.ptr :: tr)
    | (none, el1, tr) =>
      let (e, el2, tr2) := validateLoop ph ctx rest el1
      (e, el2, Event.validatorCalled validator.ptr :: (tr ++ tr2))

/-- The JSON encoding of an `errorsList` (field tag `errors`, never a nil slice). -/
def errorsList.marshal (el : errorsList) : String :=
  "\x7b\"errors\":[" ++ ",".intercalate (el.Errors.map jsonString) ++ "]\x7d"

/-- The function `validate`: whether the action may run, the writer, and the trace. -/
def validate (DetectContentType : Bytes → String) (validators : Registry)
    (action : ActionFunc) (w : ResponseRecorder) (ph : ParamHandler) (ctx : Context) :
    Bool × ResponseRecorder × List Event :=
  match getValidators validators action with
  | some validators =>
    let el := NewErrors []
    match validateLoop ph ctx validators el with
    | (some _, _, tr) =>
      (false, httpError DetectContentType w (StatusText 500) 500,
        tr ++ [Event.logPrintf "Error executing validation function %#v for %#v: %v"])
    | (none, el, tr) =>
      if el.HasError then
        let w := w.SetHeader "Content-Type" "application/json; charset=utf-8"
        let w := w.WriteHeader 400
        (false, jsonEncode DetectContentType w (some el.marshal), tr)
      else (true, w, tr)
  | none => (true, w, [])

/-- The function `sendReader`. -/
def sendReader (DetectContentType : Bytes → String) (code : Int) (reader : Reader)
    (w : ResponseRecorder) : ResponseRecorder × List Event :=
  match reader.Read 512 with
  | (data, err, reader) =>
    let count := data.length
    let buffer := data ++ List.replicate (512 - count) 0
    if err ≠ none ∧ err ≠ some Error.EOF then
      (httpError DetectContentType w (StatusText 500) 500,
        [Event.logPrintf "Error reading from reader object: %v"])
    else if count > 0 then
      let w := w.SetHeader "Content-Type" (DetectContentType buffer)
      let w := w.WriteHeader code
      let w := w.Write DetectContentType (buffer.take count)
      (ioCopy DetectContentType w reader, [])
    else (httpError DetectContentType w (StatusText 204) 204, [])

/-- The handler returned by `HandleAction(action)`, serving request `r` on writer `w`:
the writer afterwards and the trace. -/
def HandleAction (DetectContentType : Bytes → String) (validators : Registry)
    (action : ActionFunc) (w : ResponseRecorder) (r : Request) :
    ResponseRecorder × List Event :=
  let ph := paramHandler r
  let ctx := r.ctx
  match validate DetectContentType validators action w ph ctx with
  | (false, w, tr) => (w, tr)
  | (true, w, tr) =>
    match action.call ph ctx with
    | (result, code, err) =>
      let tr := tr ++ [Event.actionCalled action.ptr]
      match err with
      | some _ =>
        (httpError DetectContentType w (StatusText 500) 500,
          tr ++ [Event.logPrintf "Error executing action %v: %v"])
      | none =>
        match result with
        | .nil =>
          let w := w.SetHeader "Content-Type" "text/plain; charset=utf-8"
          if code > 0 then (w.WriteHeader code, tr) else (w.WriteHeader 204, tr)
        | .string s =>
          let code := if code ≤ 0 then 200 else code
          let w := w.SetHeader "Content-Type" "text/plain; charset=utf-8"
          let w := w.WriteHeader code
          (w.Write DetectContentType (bytes s), tr)
        | .func resource =>
          let w := w.SetHeader "Content-Type" resource.contenType
          let w :=
            if resource.contentLength > 0 then
              w.SetHeader "Content-Length" (toString resource.contentLength)
            else w
          (ioCopy DetectContentType w resource.reader, tr)
        | .reader reader =>
          let code := if code ≤ 0 then 200 else code
          let (w, tr2) := sendReader DetectContentType code reader w
          (w, tr ++ tr2)
        | .other v =>
          let code := if code ≤ 0 then 200 else code
          let w := w.SetHeader "Content-Type" "application/json; charset=utf-8"
          let w := w.WriteHeader code
          (jsonEncode DetectContentType w (marshal v), tr)

/-! ## The test helpers of common_test.go -/

/-- The text `checkResponseBody` compares: the recorded body with surrounding white space
trimmed. -/
def responseBody (rr : ResponseRecorder) : Bytes := TrimSpace rr.Body

/-- The code pointers of the validation steps called, in call order. -/
def validatorCalls : List Event → List Nat
  | [] => []
  | Event.validatorCalled p :: tr => p :: validatorCalls tr
  | _ :: tr => validatorCalls tr

/-- The messages passed to `AddError`, in call order. -/
def addErrorCalls : List Event → List String
  | [] => []
  | Event.addErrorCalled m :: tr => m :: addErrorCalls tr
  | _ :: tr => addErrorCalls tr

/-- How often the action was called. -/
def actionCalls : List Event → Nat
  | [] => 0
  | Event.actionCalled _ :: tr => actionCalls tr + 1
  | _ :: tr => actionCalls tr

/-! ## Validation steps, described step by step -/

/-- What a call of a validation step does when the collector it is handed already holds a
message (`had`) or holds none: the messages it adds, in order, and the error it returns. -/
def Validation.outcome : Validation → Bool → List String × GoError
  | .ret err, _ => ([], err)
  | .AddError err next, _ => (err :: (next.outcome true).1, (next.outcome true).2)
  | .HasError next, had => (next had).outcome had

/-- The messages a step adds when the collector holds `before`. -/
def stepMessages (ph : ParamHandler) (ctx : Context) (v : ValidationFunk)
    (before : List String) : List String :=
  ((v.call ph ctx).outcome (decide (before.length > 0))).1

/-- The error a step returns when the collector holds `before`. -/
def stepError (ph : ParamHandler) (ctx : Context) (v : ValidationFunk)
    (before : List String) : GoError :=
  ((v.call ph ctx).outcome (decide (before.length > 0))).2

/-- The messages the steps add, in order, when run one after the other on a collector that
holds `before`. -/
def addedMessages (ph : ParamHandler) (ctx : Context) :
    List ValidationFunk → List String → List String
  | [], _ => []
  | v :: rest, before =>
    stepMessages ph ctx v before ++
      addedMessages ph ctx rest (before ++ stepMessages ph ctx v before)

/-- Every step returns a nil error when the steps are run one after the other on a
collector that holds `before`. -/
def allReturnNil (ph : ParamHandler) (ctx : Context) :
    List ValidationFunk → List String → Prop
  | [], _ => True
  | v :: rest, before =>
    stepError ph ctx v before = none ∧
      allReturnNil ph ctx rest (before ++ stepMessages ph ctx v before)

/-- The registry after the given registrations, made in order on the empty map. -/
def registerAll (ops : List (ActionFunc × ValidationFunk)) : Registry :=
  ops.foldl (fun validators op => AddValidator validators op.1 op.2) Registry.empty

/-! ## Example inputs -/

/-- An example request: `GET /api/123?q=test` routed through `/api/:id`. -/
def exampleRequest : Request :=
  { Params := fun k => if k = "id" then "123" else "",
    Form := fun k => if k = "q" then ["test"] else [],
    ctx := { Done := false } }

/-- A content sniffer standing in for `http.DetectContentType` in examples. -/
def exampleSniff : Bytes → String := fun _ => "application/octet-stream"

/-- The action of `TestHandleActionValidatorNegative`. -/
def negativeAction : ActionFunc :=
  { ptr := 0x4d2a40, call := fun _ _ => (Result.nil, 200, none) }

/-- The first step of `TestHandleActionValidatorNegative`. -/
def negativeStep1 : ValidationFunk :=
  { ptr := 0x4d2b00, call := fun _ _ => .AddError "Test Failure 1" (.ret none) }

/-- The second step of `TestHandleActionValidatorNegative`. -/
def negativeStep2 : ValidationFunk :=
  { ptr := 0x4d2b80, call := fun _ _ => .AddError "Test Failure 2" (.ret none) }

/-- The registry of `TestHandleActionValidatorNegative`. -/
def negativeRegistry : Registry :=
  AddValidator (AddValidator Registry.empty negativeAction negativeStep1)
    negativeAction negativeStep2

/-- The step of `TestHandleActionValidatorValidationCallFatalError`. -/
def fatalStep : ValidationFunk :=
  { ptr := 0x4d2c00,
    call := fun _ _ =>
      .AddError "fail" (.ret (some (Error.msg "test fatal error during validation call"))) }

/-- A registry with a step that adds a message, then the fatal step, then a further step. -/
def fatalRegistry : Registry :=
  registerAll [(negativeAction, negativeStep1), (negativeAction, fatalStep),
    (negativeAction, negativeStep2)]

/-- The action of `TestHandleActionErrors`, returning a value and a status next to its
error. -/
def errorAction : ActionFunc :=
  { ptr := 0x4d3000,
    call := fun _ _ => (Result.string "ignored", 201,
      some (Error.msg "this is simply an error, returned by the action")) }

/-- An action returning nil with status 202. -/
def acceptedAction : ActionFunc :=
  { ptr := 0x4d3080, call := fun _ _ => (Result.nil, 202, none) }

/-- The action of `TestHandleActionPlainText`. -/
def plainTextAction : ActionFunc :=
  { ptr := 0x4d3100, call := fun _ _ => (Result.string "test", 200, none) }

/-- The reader `strings.NewReader("This is a test!")`. -/
def testReader : Reader := [{ data := bytes "This is a test!", err := none }]

/-- The resource function of `TestHandleActionResource`. -/
def testResource : ResourceFunc :=
  { contenType := "text/plain; charset=utf=8", contentLength := 15, reader := testReader }

/-- The action of `TestHandleActionResource`. -/
def resourceAction : ActionFunc :=
  { ptr := 0x4d3180, call := fun _ _ => (Result.func testResource, 200, none) }

/-- An action returning the resource of `TestHandleActionResource` with status 404. -/
def resourceNotFoundAction : ActionFunc :=
  { ptr := 0x4d3200, call := fun _ _ => (Result.func testResource, 404, none) }

/-- An action returning the same resource function converted to the named type:
`return ResourceFunc(f), http.StatusOK, nil`. -/
def namedResourceAction : ActionFunc :=
  { ptr := 0x4d3280,
    call := fun _ _ => (Result.other (GoValue.resourceFunc testResource), 200, none) }

/-- An action returning the empty reader `strings.NewReader("")` with status 201. -/
def emptyReaderAction : ActionFunc :=
  { ptr := 0x4d3300, call := fun _ _ => (Result.reader [], 201, none) }

/-! ## Decoding: UTF-8 and the JSON decoder -/

/-- Whether a byte is a UTF-8 continuation byte. -/
def isContinuation (b : Nat) : Bool := decide (0x80 ≤ b) && decide (b < 0xC0)

/-- The first code point of a UTF-8 byte sequence and the bytes after it: shortest-form
encodings of code points other than surrogates up to U+10FFFF are accepted. -/
def decodeRune : Bytes → Option (Char × Bytes)
  | [] => none
  | b0 :: rest =>
    if b0 < 0x80 then some (Char.ofNat b0, rest)
    else if b0 < 0xC0 then none
    else if b0 < 0xE0 then
      match rest with
      | b1 :: rest1 =>
        let v := (b0 - 0xC0) * 64 + (b1 - 0x80)
        if isContinuation b1 && decide (0x80 ≤ v) then some (Char.ofNat v, rest1) else none
      | _ => none
    else if b0 < 0xF0 then
      match rest with
      | b1 :: b2 :: rest2 =>
        let v := (b0 - 0xE0) * 4096 + (b1 - 0x80) * 64 + (b2 - 0x80)
        if isContinuation b1 && isContinuation b2 && decide (0x800 ≤ v)
            && !(decide (0xD800 ≤ v) && decide (v ≤ 0xDFFF)) then
          some (Char.ofNat v, rest2)
        else none
      | _ => none
    else if b0 < 0xF8 then
      match rest with
      | b1 :: b2 :: b3 :: rest3 =>
        let v := (b0 - 0xF0) * 262144 + (b1 - 0x80) * 4096 + (b2 - 0x80) * 64 + (b3 - 0x80)
        if isContinuation b1 && isContinuation b2 && isContinuation b3
            && decide (0x10000 ≤ v) && decide (v ≤ 0x10FFFF) then
          some (Char.ofNat v, rest3)
        else none
      | _ => none
    else none

/-- The code points of a byte sequence, taken one after the other; the first argument
bounds their number. -/
def utf8DecodeAux : Nat → Bytes → Option (List Char)
  | _, [] => some []
  | 0, _ :: _ => none
  | fuel + 1, b :: bs =>
    match decodeRune (b :: bs) with
    | some (c, rest) => (utf8DecodeAux fuel rest).map fun cs => c :: cs
    | none => none

/-- The text a byte sequence holds in UTF-8.  `none` stands for input that is not valid
UTF-8 (which Go would read as U+FFFD; that substitution is not modelled). -/
def utf8Decode (data : Bytes) : Option (List Char) := utf8DecodeAux data.length data

/-- The white space the JSON scanner skips: space, tab, line feed, carriage return. -/
def isJsonSpace (c : Char) : Bool :=
  c.toNat == 32 || c.toNat == 9 || c.toNat == 10 || c.toNat == 13

/-- The input after leading white space. -/
def skipSpace (cs : List Char) : List Char := cs.dropWhile isJsonSpace

/-- The value of a hexadecimal digit. -/
def hexVal (c : Char) : Option Nat :=
  let v := c.toNat
  if 48 ≤ v ∧ v ≤ 57 then some (v - 48)
  else if 97 ≤ v ∧ v ≤ 102 then some (v - 87)
  else if 65 ≤ v ∧ v ≤ 70 then some (v - 55)
  else none

/-- The function `getu4`: the code unit four hexadecimal digits denote. -/
def getu4 (a b c d : Char) : Option Nat :=
  match hexVal a, hexVal b, hexVal c, hexVal d with
  | some x, some y, some z, some w => some (x * 4096 + y * 256 + z * 16 + w)
  | _, _, _, _ => none

/-- The character a single-letter escape stands for. -/
def simpleEscape (c : Char) : Option Char :=
  let v := c.toNat
  if v = 34 then some (Char.ofNat 34)
  else if v = 92 then some (Char.ofNat 92)
  else if v = 47 then some (Char.ofNat 47)
  else if v = 98 then some (Char.ofNat 8)
  else if v = 102 then some (Char.ofNat 12)
  else if v = 110 then some (Char.ofNat 10)
  else if v = 114 then some (Char.ofNat 13)
  else if v = 116 then some (Char.ofNat 9)
  else none

/-- The code point of a surrogate pair, when `hi` is a high and `lo` a low surrogate
(`utf16.DecodeRune`). -/
def decodeSurrogates (hi lo : Nat) : Option Nat :=
  if 0xD800 ≤ hi ∧ hi < 0xDC00 ∧ 0xDC00 ≤ lo ∧ lo < 0xE000 then
    some (0x10000 + (hi - 0xD800) * 1024 + (lo - 0xDC00))
  else none

/-- The code point a following `\uXXXX` escape completes the high surrogate `hi` to, when
the six characters given are such an escape of a low surrogate. -/
def lowSurrogate (hi : Nat) (e u a b c d : Char) : Option Nat :=
  if e.toNat = 92 ∧ u.toNat = 117 then
    match getu4 a b c d with
    | some lo => decodeSurrogates hi lo
    | none => none
  else none

/-- The character an escape denotes, on the input after the backslash, and the input after
the escape.  A `\u` escape of a surrogate is combined with a following escape of a low
surrogate or else read as U+FFFD. -/
def unescape : List Char → Option (Char × List Char)
  | [] => none
  | e :: rest1 =>
    if e.toNat = 117 then
      match rest1 with
      | a :: b :: c :: d :: rest2 =>
        match getu4 a b c d with
        | none => none
        | some u =>
          if 0xD800 ≤ u ∧ u < 0xE000 then
            match rest2 with
            | e2 :: u2 :: a2 :: b2 :: c2 :: d2 :: rest3 =>
              match lowSurrogate u e2 u2 a2 b2 c2 d2 with
              | some cp => some (Char.ofNat cp, rest3)
              | none => some (Char.ofNat 0xFFFD, rest2)
            | _ => some (Char.ofNat 0xFFFD, rest2)
          else some (Char.ofNat u, rest2)
      | _ => none
    else
      match simpleEscape e with
      | some ch => some (ch, rest1)
      | none => none

/-- The string a literal denotes, on the input after its opening quote, and the input
after its closing quote; control characters are rejected.  The first argument bounds the
number of characters of the string. -/
def unquoteAux : Nat → List Char → Option (List Char × List Char)
  | 0, _ => none
  | _ + 1, [] => none
  | fuel + 1, c :: rest =>
    if c.toNat = 34 then some ([], rest)
    else if c.toNat = 92 then
      match unescape rest with
      | some (ch, rest1) => (unquoteAux fuel rest1).map fun p => (ch :: p.1, p.2)
      | none => none
    else if c.toNat < 32 then none
    else (unquoteAux fuel rest).map fun p => (c :: p.1, p.2)

/-- The function `unquote` on the input after an opening quote. -/
def unquote (cs : List Char) : Option (List Char × List Char) := unquoteAux cs.length cs

/-- Whether a character is a decimal digit. -/
def isDigit (c : Char) : Bool := decide (48 ≤ c.toNat) && decide (c.toNat ≤ 57)

/-- The number a sequence of decimal digits denotes. -/
def digitsValue (ds : List Char) : Nat :=
  ds.foldl (fun acc c => acc * 10 + (c.toNat - 48)) 0

/-- An unsigned integer literal at the head of the input: a single `0` or digits that do
not start with `0`.  `none` is a syntax error or a number with a fraction or an exponent
(floating-point numbers are not modelled). -/
def parseNat (cs : List Char) : Option (Nat × List Char) :=
  let ds := cs.takeWhile isDigit
  let rest := cs.dropWhile isDigit
  if ds.isEmpty then none
  else if decide (ds.length > 1) && decide ((ds.headD (Char.ofNat 48)).toNat = 48) then none
  else
    match rest with
    | c :: _ =>
      if c.toNat = 46 ∨ c.toNat = 101 ∨ c.toNat = 69 then none
      else some (digitsValue ds, rest)
    | [] => some (digitsValue ds, rest)

/-- An integer literal at the head of the input, with an optional minus sign. -/
def parseNumber : List Char → Option (Int × List Char)
  | [] => none
  | c :: rest =>
    if c.toNat = 45 then (parseNat rest).map fun p => (-(p.1 : Int), p.2)
    else (parseNat (c :: rest)).map fun p => ((p.1 : Int), p.2)

/-- How many low bits a natural number loses when it is cut down to the 53 bits of a
float64 mantissa; the first argument bounds the count. -/
def float64Shift : Nat → Nat → Nat
  | 0, _ => 0
  | fuel + 1, n => if n < 9007199254740992 then 0 else float64Shift fuel (n / 2) + 1

/-- The function `convertNumber` of the decoder on an integer literal:
`strconv.ParseFloat(s, 64)` gives the nearest float64, ties going to the even mantissa,
and fails when the literal is out of range.  The float64 is given by the integer it
equals. -/
def convertNumber (i : Int) : Option Int :=
  let n := i.natAbs
  let e := float64Shift n n
  let q := n / 2 ^ e
  let r := n % 2 ^ e
  let m := if 2 * r > 2 ^ e ∨ (2 * r = 2 ^ e ∧ q % 2 = 1) then q + 1 else q
  if e ≥ 972 ∨ (e = 971 ∧ m = 9007199254740992) then none
  else some (if i < 0 then -((m * 2 ^ e : Nat) : Int) else ((m * 2 ^ e : Nat) : Int))

/-- The input after the given literal, when the input starts with it. -/
def expectLiteral (lit : List Char) (cs : List Char) : Option (List Char) :=
  if lit.isPrefixOf cs then some (cs.drop lit.length) else none

mutual
/-- The decoder on one JSON value at the head of the input (after white space): the value
and the input after it.  The first argument bounds nesting and element count; `decodeText`
passes the length of the input plus one. -/
def parseValue : Nat → List Char → Option (GoValue × List Char)
  | 0, _ => none
  | fuel + 1, cs =>
    match skipSpace cs with
    | [] => none
    | c :: rest =>
      if c.toNat = 34 then
        (unquote rest).map fun p => (GoValue.str (String.mk p.1), p.2)
      else if c.toNat = 91 then
        match skipSpace rest with
        | [] => none
        | c2 :: rest2 =>
          if c2.toNat = 93 then some (GoValue.array [], rest2)
          else (parseElements fuel (c2 :: rest2)).map fun p => (GoValue.array p.1, p.2)
      else if c.toNat = 123 then
        match skipSpace rest with
        | [] => none
        | c2 :: rest2 =>
          if c2.toNat = 125 then some (GoValue.object [], rest2)
          else (parseMembers fuel (c2 :: rest2)).map fun p => (GoValue.object p.1, p.2)
      else if c.toNat = 110 then
        (expectLiteral "null".data (c :: rest)).map fun r => (GoValue.null, r)
      else if c.toNat = 116 then
        (expectLiteral "true".data (c :: rest)).map fun r => (GoValue.bool true, r)
      else if c.toNat = 102 then
        (expectLiteral "false".data (c :: rest)).map fun r => (GoValue.bool false, r)
      else
        (parseNumber (c :: rest)).bind fun p =>
          (convertNumber p.1).map fun f => (GoValue.int f, p.2)
/-- The elements of an array up to and including its closing bracket. -/
def parseElements : Nat → List Char → Option (List GoValue × List Char)
  | 0, _ => none
  | fuel + 1, cs =>
    match parseValue fuel cs with
    | none => none
    | some (v, rest) =>
      match skipSpace rest with
      | [] => none
      | c :: rest2 =>
        if c.toNat = 44 then (parseElements fuel rest2).map fun p => (v :: p.1, p.2)
        else if c.toNat = 93 then some ([v], rest2)
        else none
/-- The members of an object up to and including its closing brace. -/
def parseMembers : Nat → List Char → Option (List (String × GoValue) × List Char)
  | 0, _ => none
  | fuel + 1, cs =>
    match skipSpace cs with
    | [] => none
    | q :: rest =>
      if q.toNat = 34 then
        match unquote rest with
        | none => none
        | some (key, rest1) =>
          match skipSpace rest1 with
          | [] => none
          | colon :: rest2 =>
            if colon.toNat = 58 then
              match parseValue fuel rest2 with
              | none => none
              | some (v, rest3) =>
                match skipSpace rest3 with
                | [] => none
                | c :: rest4 =>
                  if c.toNat = 44 then
                    (parseMembers fuel rest4).map fun p => ((String.mk key, v) :: p.1, p.2)
                  else if c.toNat = 125 then some ([(String.mk key, v)], rest4)
                  else none
            else none
      else none
end

/-- The decoder on a whole JSON text: one value, then nothing but white space. -/
def decodeText (cs : List Char) : Option GoValue :=
  match parseValue (cs.length + 1) cs with
  | some (v, rest) => if (skipSpace rest).isEmpty then some v else none
  | none => none

/-- The function `json.Unmarshal` into an empty interface, on UTF-8 input, the decoded
data given in the shape of `GoValue`: object members in text order, and a number, which
decodes to a float64, as `int` of the integer that float64 equals.  The scanner limit on
nesting depth is not modelled. -/
def Unmarshal (data : Bytes) : Option GoValue :=
  match utf8Decode data with
  | some cs => decodeText cs
  | none => none

mutual
/-- Whether `encoding/json` can encode the value: it holds no function or channel. -/
def GoValue.encodable : GoValue → Bool
  | .null => true
  | .bool _ => true
  | .int _ => true
  | .str _ => true
  | .array items => encodableItems items
  | .object fields => encodableFields fields
  | .resourceFunc _ => false
  | .unsupported => false
/-- Whether every element can be encoded. -/
def encodableItems : List GoValue → Bool
  | [] => true
  | v :: rest => v.encodable && encodableItems rest
/-- Whether every member can be encoded. -/
def encodableFields : List (String × GoValue) → Bool
  | [] => true
  | (_, v) :: rest => v.encodable && encodableFields rest
end

mutual
/-- Whether every integer the value holds is exactly representable as a float64. -/
def GoValue.float64Exact : GoValue → Bool
  | .int i => decide (convertNumber i = some i)
  | .array items => float64ExactItems items
  | .object fields => float64ExactFields fields
  | _ => true
/-- Whether the elements hold only integers representable as float64. -/
def float64ExactItems : List GoValue → Bool
  | [] => true
  | v :: rest => v.float64Exact && float64ExactItems rest
/-- Whether the members hold only integers representable as float64. -/
def float64ExactFields : List (String × GoValue) → Bool
  | [] => true
  | (_, v) :: rest => v.float64Exact && float64ExactFields rest
end

mutual
/-- A bound on the nesting the decoder meets on the encoding of a value. -/
def GoValue.depth : GoValue → Nat
  | .array items => depthItems items + 1
  | .object fields => depthFields fields + 1
  | _ => 1
/-- The bound for the elements of an array. -/
def depthItems : List GoValue → Nat
  | [] => 0
  | v :: rest => max v.depth (depthItems rest) + 1
/-- The bound for the members of an object. -/
def depthFields : List (String × GoValue) → Nat
  | [] => 0
  | (_, v) :: rest => max v.depth (depthFields rest) + 1
end

/-- The struct of `TestHandleActionStruct`, with `Key` set to `test`. -/
def testStruct : GoValue := GoValue.object [("key", GoValue.str "test")]

/-- The action of `TestHandleActionStruct`. -/
def structAction : ActionFunc :=
  { ptr := 0x4d3380, call := fun _ _ => (Result.other testStruct, 200, none) }

/-- The slice of `TestHandleActionArray`. -/
def testArray : GoValue := GoValue.array [GoValue.int 123, GoValue.int 456]

/-- The action of `TestHandleActionArray`, returning its status as 0. -/
def arrayAction : ActionFunc :=
  { ptr := 0x4d3400, call := fun _ _ => (Result.other testArray, 0, none) }

/-- An action returning nil with status 99. -/
def lowCodeAction : ActionFunc :=
  { ptr := 0x4d3480, call := fun _ _ => (Result.nil, 99, none) }

/-- An action returning the string `x` with status 42. -/
def lowCodeStringAction : ActionFunc :=
  { ptr := 0x4d3500, call := fun _ _ => (Result.string "x", 42, none) }

/-- A slice of interfaces holding the integer 1 and a channel. -/
def channelSlice : GoValue := GoValue.array [GoValue.int 1, GoValue.unsupported]

/-- An action returning a slice that holds a channel, with status 201. -/
def channelSliceAction : ActionFunc :=
  { ptr := 0x4d3580, call := fun _ _ => (Result.other channelSlice, 201, none) }

/-- A slice holding the integer 2^53 + 1. -/
def bigIntSlice : GoValue := GoValue.array [GoValue.int 9007199254740993]

/-- An action returning a slice that holds 2^53 + 1, with status 200. -/
def bigIntSliceAction : ActionFunc :=
  { ptr := 0x4d3600, call := fun _ _ => (Result.other bigIntSlice, 200, none) }

/-- An action returning the slice of `TestHandleActionArray` with status 1000. -/
def highCodeArrayAction : ActionFunc :=
  { ptr := 0x4d3680, call := fun _ _ => (Result.other testArray, 1000, none) }

/-- Whether a character can be the first of the encoding of a value. -/
def isValueStart (c : Char) : Bool :=
  c.toNat == 110 || c.toNat == 116 || c.toNat == 102 || c.toNat == 45 || isDigit c
    || c.toNat == 34 || c.toNat == 91 || c.toNat == 123

/-- Whether the input is at its end or goes on with a comma, a closing bracket or brace, or
a line feed: what can follow a value in the output of the encoder. -/
def delimited (rest : List Char) : Prop :=
  ∀ c ∈ rest.head?, c.toNat = 44 ∨ c.toNat = 93 ∨ c.toNat = 125 ∨ c.toNat = 10


/-! ## Lemmas on traces -/

theorem validatorCalls_append (a b : List Event) :
    validatorCalls (a ++ b) = validatorCalls a ++ validatorCalls b := by
  induction a with
  | nil => rfl
  | cons e a ih => cases e <;> simp [validatorCalls, ih]

theorem addErrorCalls_append (a b : List Event) :
    addErrorCalls (a ++ b) = addErrorCalls a ++ addErrorCalls b := by
  induction a with
  | nil => rfl
  | cons e a ih => cases e <;> simp [addErrorCalls, ih]

theorem actionCalls_append (a b : List Event) :
    actionCalls (a ++ b) = actionCalls a + actionCalls b := by
  induction a with
  | nil => simp [actionCalls]
  | cons e a ih => cases e <;> simp [actionCalls, ih]; omega

theorem validatorCalls_addError (ms : List String) :
    validatorCalls (ms.map Event.addErrorCalled) = [] := by
  induction ms with
  | nil => rfl
  | cons m ms ih => simpa [validatorCalls] using ih

theorem addErrorCalls_addError (ms : List String) :
    addErrorCalls (ms.map Event.addErrorCalled) = ms := by
  induction ms with
  | nil => rfl
  | cons m ms ih => simpa [addErrorCalls] using ih

theorem actionCalls_addError (ms : List String) :
    actionCalls (ms.map Event.addErrorCalled) = 0 := by
  induction ms with
  | nil => rfl
  | cons m ms ih => simpa [actionCalls] using ih

/-! ## Lemmas on validation -/

theorem Validation.run_eq (s : Validation) (el : errorsList) :
    s.run el = ((s.outcome el.HasError).2,
      { Errors := el.Errors ++ (s.outcome el.HasError).1 },
      (s.outcome el.HasError).1.map Event.addErrorCalled) := by
  induction s generalizing el with
  | ret err => simp [Validation.run, Validation.outcome]
  | AddError err next ih =>
    have h : ({ Errors := el.Errors ++ [err] } : errorsList).HasError = true := by
      simp [errorsList.HasError]
    simp [Validation.run, Validation.outcome, ih, h, errorsList.AddError]
  | HasError next ih => simp [Validation.run, Validation.outcome, ih]

theorem validateLoop_nil (ph : ParamHandler) (ctx : Context) (vs : List ValidationFunk)
    (el : errorsList) (h : allReturnNil ph ctx vs el.Errors) :
    ∃ tr, validateLoop ph ctx vs el
        = (none, { Errors := el.Errors ++ addedMessages ph ctx vs el.Errors }, tr)
      ∧ validatorCalls tr = vs.map (fun v => v.ptr)
      ∧ addErrorCalls tr = addedMessages ph ctx vs el.Errors
      ∧ actionCalls tr = 0 := by
  induction vs generalizing el with
  | nil => exact ⟨[], by simp [validateLoop, addedMessages], rfl, rfl, rfl⟩
  | cons v rest ih =>
    obtain ⟨hv, hrest⟩ := h
    have hv2 : ((v.call ph ctx).outcome el.HasError).2 = none := hv
    obtain ⟨tr, h1, h2, h3, h4⟩ :=
      ih { Errors := el.Errors ++ stepMessages ph ctx v el.Errors } hrest
    refine ⟨Event.validatorCalled v.ptr ::
      (((v.call ph ctx).outcome el.HasError).1.map Event.addErrorCalled ++ tr), ?_, ?_, ?_, ?_⟩
    · simp only [validateLoop, Validation.run_eq, hv2]
      have : ({ Errors := el.Errors ++ ((v.call ph ctx).outcome el.HasError).1 } : errorsList)
          = { Errors := el.Errors ++ stepMessages ph ctx v el.Errors } := rfl
      rw [this, h1]
      simp [addedMessages]
    · simp [validatorCalls, validatorCalls_append, validatorCalls_addError, h2]
    · simp only [addErrorCalls, addErrorCalls_append, addErrorCalls_addError, h3, addedMessages]
      rfl
    · simp [actionCalls, actionCalls_append, actionCalls_addError, h4]

theorem validateLoop_fatal (ph : ParamHandler) (ctx : Context)
    (pre : List ValidationFunk) (step : ValidationFunk) (post : List ValidationFunk)
    (e : Error) (el : errorsList) (hpre : allReturnNil ph ctx pre el.Errors)
    (herr : stepError ph ctx step (el.Errors ++ addedMessages ph ctx pre el.Errors) = some e) :
    ∃ el1 tr, validateLoop ph ctx (pre ++ step :: post) el = (some e, el1, tr)
      ∧ validatorCalls tr = (pre ++ [step]).map (fun v => v.ptr)
      ∧ actionCalls tr = 0 := by
  induction pre generalizing el with
  | nil =>
    have h2 : ((step.call ph ctx).outcome el.HasError).2 = some e := by
      simpa [stepError, addedMessages, errorsList.HasError] using herr
    refine ⟨{ Errors := el.Errors ++ ((step.call ph ctx).outcome el.HasError).1 },
      Event.validatorCalled step.ptr ::
        ((step.call ph ctx).outcome el.HasError).1.map Event.addErrorCalled, ?_, ?_, ?_⟩
    · simp only [List.nil_append, validateLoop, Validation.run_eq, h2]
    · simp [validatorCalls, validatorCalls_addError]
    · simp [actionCalls, actionCalls_addError]
  | cons v rest ih =>
    obtain ⟨hv, hrest⟩ := hpre
    have hv2 : ((v.call ph ctx).outcome el.HasError).2 = none := hv
    have herr2 : stepError ph ctx step
        (({ Errors := el.Errors ++ stepMessages ph ctx v el.Errors } : errorsList).Errors ++
          addedMessages ph ctx rest
            ({ Errors := el.Errors ++ stepMessages ph ctx v el.Errors } : errorsList).Errors)
        = some e := by
      simpa [addedMessages, List.append_assoc] using herr
    obtain ⟨el1, tr, h1, h2, h3⟩ :=
      ih { Errors := el.Errors ++ stepMessages ph ctx v el.Errors } hrest herr2
    refine ⟨el1, Event.validatorCalled v.ptr ::
      (((v.call ph ctx).outcome el.HasError).1.map Event.addErrorCalled ++ tr), ?_, ?_, ?_⟩
    · show validateLoop ph ctx (v :: (rest ++ step :: post)) el = _
      simp only [validateLoop, Validation.run_eq, hv2]
      have : ({ Errors := el.Errors ++ ((v.call ph ctx).outcome el.HasError).1 } : errorsList)
          = { Errors := el.Errors ++ stepMessages ph ctx v el.Errors } := rfl
      rw [this, h1]
    · simp [validatorCalls, validatorCalls_append, validatorCalls_addError, h2]
    · simp [actionCalls, actionCalls_append, actionCalls_addError, h3]

/-! ## Lemmas on the response recorder -/

theorem httpError_fresh (sniff : Bytes → String) (text : String) (code : Int)
    (hc : 100 ≤ code ∧ code ≤ 999) :
    httpError sniff NewRecorder text code =
      { Code := code,
        HeaderMap := ((NewRecorder.HeaderMap.Del "Content-Length").Set "Content-Type"
          "text/plain; charset=utf-8").Set "X-Content-Type-Options" "nosniff",
        Body := bytes (text ++ "\n"),
        wroteHeader := true,
        snapHeader := some (((NewRecorder.HeaderMap.Del "Content-Length").Set "Content-Type"
          "text/plain; charset=utf-8").Set "X-Content-Type-Options" "nosniff"),
        panicked := none } := by
  have h1 : ¬ code < 100 := by omega
  have h2 : ¬ code > 999 := by omega
  simp [httpError, ResponseRecorder.Write, ResponseRecorder.WriteHeader,
    ResponseRecorder.SetHeader, ResponseRecorder.DelHeader, NewRecorder, h1, h2]

theorem httpError_fresh_result (sniff : Bytes → String) (text : String) (code : Int)
    (hc : 100 ≤ code ∧ code ≤ 999) :
    (httpError sniff NewRecorder text code).Result.StatusCode = code
      ∧ (httpError sniff NewRecorder text code).Result.Header.Get "Content-Type"
          = "text/plain; charset=utf-8"
      ∧ (httpError sniff NewRecorder text code).Result.Body = bytes (text ++ "\n") := by
  rw [httpError_fresh sniff text code hc]
  have h0 : code ≠ 0 := by omega
  simp [ResponseRecorder.Result, h0, Header.Get, Header.Set]

/-- C1: when every registered validation step of a handler returns a nil error and at least
one adds a message, every step is called once in list order, the handler is not called, and
the response is 400 with content type `application/json; charset=utf-8` and the body
`{"errors":[...]}` (followed by the encoder's newline) listing exactly the messages passed
to `AddError`, in call order. -/
theorem validation_messages_give_400 (sniff : Bytes → String) (validators : Registry)
    (action : ActionFunc) (r : Request) (steps : List ValidationFunk)
    (hreg : getValidators validators action = some steps)
    (hnil : allReturnNil (paramHandler r) r.ctx steps [])
    (hmsg : addedMessages (paramHandler r) r.ctx steps [] ≠ []) :
    validatorCalls (HandleAction sniff validators action NewRecorder r).2
        = steps.map (fun v => v.ptr)
      ∧ actionCalls (HandleAction sniff validators action NewRecorder r).2 = 0
      ∧ addErrorCalls (HandleAction sniff validators action NewRecorder r).2
        = addedMessages (paramHandler r) r.ctx steps []
      ∧ (HandleAction sniff validators action NewRecorder r).1.Result.StatusCode = 400
      ∧ (HandleAction sniff validators action NewRecorder r).1.Result.Header.Get "Content-Type"
        = "application/json; charset=utf-8"
      ∧ (HandleAction sniff validators action NewRecorder r).1.Result.Body
        = bytes ("\x7b\"errors\":[" ++
            ",".intercalate ((addedMessages (paramHandler r) r.ctx steps []).map jsonString)
            ++ "]\x7d" ++ "\n") := by
  obtain ⟨tr, h1, h2, h3, h4⟩ :=
    validateLoop_nil (paramHandler r) r.ctx steps (NewErrors []) hnil
  have hE : (NewErrors []).Errors = [] := rfl
  rw [hE] at h1 h3
  simp only [List.nil_append] at h1
  have hHas : ({ Errors := addedMessages (paramHandler r) r.ctx steps [] } :
      errorsList).HasError = true := by
    cases hm : addedMessages (paramHandler r) r.ctx steps [] with
    | nil => exact absurd hm hmsg
    | cons a b => simp [errorsList.HasError]
  have hH : HandleAction sniff validators action NewRecorder r
      = (jsonEncode sniff ((NewRecorder.SetHeader "Content-Type"
            "application/json; charset=utf-8").WriteHeader 400)
          (some ({ Errors := addedMessages (paramHandler r) r.ctx steps [] } :
            errorsList).marshal), tr) := by
    simp only [HandleAction, validate, hreg, h1, hHas, if_true]
  rw [hH]
  refine ⟨h2, h4, h3, ?_, ?_, ?_⟩
  · simp [jsonEncode, ResponseRecorder.Write, ResponseRecorder.WriteHeader,
      ResponseRecorder.SetHeader, NewRecorder, ResponseRecorder.Result]
  · simp [jsonEncode, ResponseRecorder.Write, ResponseRecorder.WriteHeader,
      ResponseRecorder.SetHeader, NewRecorder, ResponseRecorder.Result, Header.Get, Header.Set]
  · simp [jsonEncode, ResponseRecorder.Write, ResponseRecorder.WriteHeader,
      ResponseRecorder.SetHeader, NewRecorder, ResponseRecorder.Result, errorsList.marshal]

/-- C1, on the steps of `TestHandleActionValidatorNegative`: both steps are called, the
action is not, and the response is 400 with the body
`{"errors":["Test Failure 1","Test Failure 2"]}`. -/
theorem validation_messages_give_400_witness :
    getValidators negativeRegistry negativeAction = some [negativeStep1, negativeStep2]
      ∧ validatorCalls
          (HandleAction exampleSniff negativeRegistry negativeAction NewRecorder exampleRequest).2
        = [negativeStep1.ptr, negativeStep2.ptr]
      ∧ actionCalls
          (HandleAction exampleSniff negativeRegistry negativeAction NewRecorder exampleRequest).2
        = 0
      ∧ (HandleAction exampleSniff negativeRegistry negativeAction NewRecorder
          exampleRequest).1.Result.StatusCode = 400
      ∧ (HandleAction exampleSniff negativeRegistry negativeAction NewRecorder
          exampleRequest).1.Result.Body
        = bytes "\x7b\"errors\":[\"Test Failure 1\",\"Test Failure 2\"]\x7d\n"
      ∧ responseBody
          (HandleAction exampleSniff negativeRegistry negativeAction NewRecorder exampleRequest).1
        = bytes "\x7b\"errors\":[\"Test Failure 1\",\"Test Failure 2\"]\x7d" :=
  have h := validation_messages_give_400 exampleSniff negativeRegistry negativeAction
    exampleRequest [negativeStep1, negativeStep2] rfl ⟨rfl, rfl, trivial⟩ (by decide)
  ⟨rfl, h.1, h.2.1, h.2.2.2.1, h.2.2.2.2.2, by decide⟩

/-- C2: when the registered steps of a handler contain a step that returns a non-nil
error, the steps before it having returned nil, the steps are called up to and including
that one and no further, the handler is not called, and the response is 500 with content
type `text/plain; charset=utf-8` and the body `Internal Server Error` (plus the newline
that `http.Error` appends), whatever messages were added before. -/
theorem fatal_validation_step_gives_500 (sniff : Bytes → String) (validators : Registry)
    (action : ActionFunc) (r : Request) (pre : List ValidationFunk) (step : ValidationFunk)
    (post : List ValidationFunk) (e : Error)
    (hreg : getValidators validators action = some (pre ++ step :: post))
    (hpre : allReturnNil (paramHandler r) r.ctx pre [])
    (herr : stepError (paramHandler r) r.ctx step
      (addedMessages (paramHandler r) r.ctx pre []) = some e) :
    validatorCalls (HandleAction sniff validators action NewRecorder r).2
        = (pre ++ [step]).map (fun v => v.ptr)
      ∧ actionCalls (HandleAction sniff validators action NewRecorder r).2 = 0
      ∧ (HandleAction sniff validators action NewRecorder r).1.Result.StatusCode = 500
      ∧ (HandleAction sniff validators action NewRecorder r).1.Result.Header.Get "Content-Type"
        = "text/plain; charset=utf-8"
      ∧ (HandleAction sniff validators action NewRecorder r).1.Result.Body
        = bytes "Internal Server Error\n"
      ∧ responseBody (HandleAction sniff validators action NewRecorder r).1
        = bytes "Internal Server Error" := by
  have hE : (NewErrors []).Errors = [] := rfl
  obtain ⟨el1, tr, h1, h2, h3⟩ :=
    validateLoop_fatal (paramHandler r) r.ctx pre step post e (NewErrors []) hpre
      (by rw [hE]; simpa using herr)
  have hH : HandleAction sniff validators action NewRecorder r
      = (httpError sniff NewRecorder (StatusText 500) 500,
          tr ++ [Event.logPrintf "Error executing validation function %#v for %#v: %v"]) := by
    simp only [HandleAction, validate, hreg, h1]
  rw [hH]
  have hs : StatusText 500 = "Internal Server Error" := by decide
  obtain ⟨r1, r2, r3⟩ := httpError_fresh_result sniff (StatusText 500) 500 (by decide)
  refine ⟨?_, ?_, r1, r2, ?_, ?_⟩
  · simp [validatorCalls_append, validatorCalls, h2]
  · simp [actionCalls_append, actionCalls, h3]
  · rw [r3, hs]; decide
  · show TrimSpace (httpError sniff NewRecorder (StatusText 500) 500).Result.Body = _
    rw [r3, hs]; decide

/-- C2, on a registry holding a step that adds a message, then the step of
`TestHandleActionValidatorValidationCallFatalError` (which adds `fail` and returns an
error), then a further step: two steps are called, and the response is the plain-text 500. -/
theorem fatal_validation_step_gives_500_witness :
    getValidators fatalRegistry negativeAction
        = some ([negativeStep1] ++ fatalStep :: [negativeStep2])
      ∧ validatorCalls
          (HandleAction exampleSniff fatalRegistry negativeAction NewRecorder exampleRequest).2
        = [negativeStep1.ptr, fatalStep.ptr]
      ∧ (HandleAction exampleSniff fatalRegistry negativeAction NewRecorder
          exampleRequest).1.Result.StatusCode = 500
      ∧ responseBody
          (HandleAction exampleSniff fatalRegistry negativeAction NewRecorder exampleRequest).1
        = bytes "Internal Server Error" :=
  have h := fatal_validation_step_gives_500 exampleSniff fatalRegistry negativeAction
    exampleRequest [negativeStep1] fatalStep [negativeStep2]
    (Error.msg "test fatal error during validation call") rfl ⟨rfl, trivial⟩ rfl
  ⟨rfl, h.1, h.2.2.1, h.2.2.2.2.2⟩

/-! ## Lemmas on dispatch -/

theorem validate_pass (sniff : Bytes → String) (validators : Registry) (action : ActionFunc)
    (w : ResponseRecorder) (ph : ParamHandler) (ctx : Context)
    (h : (validate sniff validators action w ph ctx).1 = true) :
    ∃ tr, validate sniff validators action w ph ctx = (true, w, tr) := by
  unfold validate at h ⊢
  cases hg : getValidators validators action with
  | none => exact ⟨[], rfl⟩
  | some vs =>
    rw [hg] at h
    simp only at h ⊢
    rcases hl : validateLoop ph ctx vs (NewErrors []) with ⟨e, el, tr⟩
    rw [hl] at h
    cases e with
    | some err => simp at h
    | none =>
      simp only at h ⊢
      by_cases hh : el.HasError = true
      · simp [hh] at h
      · exact ⟨tr, by simp [hh]⟩

theorem write_wrote (sniff : Bytes → String) (w : ResponseRecorder) (b : Bytes)
    (hw : w.wroteHeader = true) (hp : w.panicked = none) :
    w.Write sniff b = { w with Body := w.Body ++ b } := by
  simp [ResponseRecorder.Write, hw, hp]

theorem write_typed (sniff : Bytes → String) (w : ResponseRecorder) (b : Bytes)
    (hw : w.wroteHeader = false) (ht : (w.HeaderMap "Content-Type").isSome = true)
    (hp : w.panicked = none) :
    w.Write sniff b =
      { Code := 200, HeaderMap := w.HeaderMap, Body := (w.Body ++ b), wroteHeader := true,
        snapHeader := some w.HeaderMap, panicked := none } := by
  simp [ResponseRecorder.Write, hw, ht, hp, ResponseRecorder.WriteHeader]

theorem ioCopy_wrote (sniff : Bytes → String) (rd : Reader) (w : ResponseRecorder)
    (hw : w.wroteHeader = true) (hp : w.panicked = none) :
    ioCopy sniff w rd = { w with Body := w.Body ++ rd.content } := by
  induction rd generalizing w with
  | nil => simp [ioCopy, Reader.content]
  | cons s rest ih =>
    by_cases hd : s.data.length > 0
    · cases he : s.err with
      | none =>
        simp only [ioCopy, hd, if_true, he, Reader.content]
        rw [ih _ (by simp [write_wrote sniff w s.data hw hp, hw])
          (by simp [write_wrote sniff w s.data hw hp, hp]),
          write_wrote sniff w s.data hw hp]
        simp
      | some e =>
        simp only [ioCopy, hd, if_true, he, Reader.content]
        rw [write_wrote sniff w s.data hw hp]
    · have hnil : s.data = [] := by
        cases hs : s.data with
        | nil => rfl
        | cons a b => simp [hs] at hd
      cases he : s.err with
      | none => simp [ioCopy, hd, he, Reader.content, ih w hw hp, hnil]
      | some e => simp [ioCopy, hd, he, Reader.content, hnil]

theorem ioCopy_typed (sniff : Bytes → String) (rd : Reader) (w : ResponseRecorder)
    (hw : w.wroteHeader = false) (ht : (w.HeaderMap "Content-Type").isSome = true)
    (hp : w.panicked = none) :
    ioCopy sniff w rd =
      if rd.content = [] then w
      else { Code := 200, HeaderMap := w.HeaderMap, Body := w.Body ++ rd.content,
             wroteHeader := true, snapHeader := some w.HeaderMap, panicked := none } := by
  induction rd with
  | nil => simp [ioCopy, Reader.content]
  | cons s rest ih =>
    by_cases hd : s.data.length > 0
    · have hne : s.data ≠ [] := by
        intro h0; simp [h0] at hd
      cases he : s.err with
      | none =>
        simp only [ioCopy, hd, if_true, he, Reader.content]
        rw [write_typed sniff w s.data hw ht hp, ioCopy_wrote sniff rest _ rfl rfl]
        simp [hne]
      | some e =>
        simp only [ioCopy, hd, if_true, he, Reader.content]
        rw [write_typed sniff w s.data hw ht hp]
        simp [hne]
    · have hnil : s.data = [] := by
        cases hs : s.data with
        | nil => rfl
        | cons a b => simp [hs] at hd
      cases he : s.err with
      | none => simp [ioCopy, hd, he, Reader.content, ih, hnil]
      | some e => simp [ioCopy, hd, he, Reader.content, hnil]

/-- C3: when a handler that passes validation returns a non-nil error, the writer ends in
the state `http.Error(w, "Internal Server Error", 500)` leaves, whatever value and status
came with the error: status 500, content type `text/plain; charset=utf-8`, body
`Internal Server Error` (plus the newline that `http.Error` appends). -/
theorem handler_error_gives_500 (sniff : Bytes → String) (validators : Registry)
    (action : ActionFunc) (r : Request) (result : Result) (code : Int) (e : Error)
    (hval : (validate sniff validators action NewRecorder (paramHandler r) r.ctx).1 = true)
    (hcall : action.call (paramHandler r) r.ctx = (result, code, some e)) :
    (HandleAction sniff validators action NewRecorder r).1
        = httpError sniff NewRecorder "Internal Server Error" 500
      ∧ (HandleAction sniff validators action NewRecorder r).1.Result.StatusCode = 500
      ∧ (HandleAction sniff validators action NewRecorder r).1.Result.Header.Get "Content-Type"
        = "text/plain; charset=utf-8"
      ∧ (HandleAction sniff validators action NewRecorder r).1.Result.Body
        = bytes "Internal Server Error\n"
      ∧ responseBody (HandleAction sniff validators action NewRecorder r).1
        = bytes "Internal Server Error" := by
  obtain ⟨tr, hv⟩ := validate_pass sniff validators action NewRecorder _ _ hval
  have hs : StatusText 500 = "Internal Server Error" := by decide
  have hH : (HandleAction sniff validators action NewRecorder r).1
      = httpError sniff NewRecorder "Internal Server Error" 500 := by
    simp only [HandleAction, hv, hcall, hs]
  obtain ⟨r1, r2, r3⟩ := httpError_fresh_result sniff "Internal Server Error" 500 (by decide)
  rw [hH]
  refine ⟨rfl, r1, r2, ?_, ?_⟩
  · rw [r3]; decide
  · show TrimSpace (httpError sniff NewRecorder "Internal Server Error" 500).Result.Body = _
    rw [r3]; decide

/-- C3, on an action returning a string, status 201 and an error, with no validators
registered. -/
theorem handler_error_gives_500_witness :
    (HandleAction exampleSniff Registry.empty errorAction NewRecorder
        exampleRequest).1.Result.StatusCode = 500
      ∧ responseBody
          (HandleAction exampleSniff Registry.empty errorAction NewRecorder exampleRequest).1
        = bytes "Internal Server Error" :=
  have h := handler_error_gives_500 exampleSniff Registry.empty errorAction exampleRequest
    (Result.string "ignored") 201 (Error.msg "this is simply an error, returned by the action")
    rfl rfl
  ⟨h.2.1, h.2.2.2.2⟩

/-- C4 (amended): when a handler that passes validation returns a nil error and a nil
result with status `code`, then for `code ≤ 0` or `100 ≤ code ≤ 999` no panic occurs, the
body is empty, the content type is `text/plain; charset=utf-8`, and the status is 204 when
`code ≤ 0` and `code` itself otherwise; for any other positive `code`, `WriteHeader`
panics with `invalid WriteHeader code`, no header is written and the body is empty. -/
theorem nil_result_response (sniff : Bytes → String) (validators : Registry)
    (action : ActionFunc) (r : Request) (code : Int)
    (hval : (validate sniff validators action NewRecorder (paramHandler r) r.ctx).1 = true)
    (hcall : action.call (paramHandler r) r.ctx = (Result.nil, code, none)) :
    ((code ≤ 0 ∨ (100 ≤ code ∧ code ≤ 999)) →
        (HandleAction sniff validators action NewRecorder r).1.panicked = none
        ∧ (HandleAction sniff validators action NewRecorder r).1.Result.Body = []
        ∧ (HandleAction sniff validators action NewRecorder r).1.Result.Header.Get
            "Content-Type" = "text/plain; charset=utf-8"
        ∧ (code ≤ 0 →
            (HandleAction sniff validators action NewRecorder r).1.Result.StatusCode = 204)
        ∧ (code > 0 →
            (HandleAction sniff validators action NewRecorder r).1.Result.StatusCode = code))
      ∧ ((0 < code ∧ (code < 100 ∨ 999 < code)) →
        (HandleAction sniff validators action NewRecorder r).1.panicked
            = some ("invalid WriteHeader code " ++ toString code)
        ∧ (HandleAction sniff validators action NewRecorder r).1.wroteHeader = false
        ∧ (HandleAction sniff validators action NewRecorder r).1.Body = []) := by
  obtain ⟨tr, hv⟩ := validate_pass sniff validators action NewRecorder _ _ hval
  by_cases hc : code > 0
  · have hH : (HandleAction sniff validators action NewRecorder r).1
        = (NewRecorder.SetHeader "Content-Type" "text/plain; charset=utf-8").WriteHeader code := by
      simp only [HandleAction, hv, hcall, hc, if_true]
    rw [hH]
    constructor
    · intro hr
      have h1 : ¬ code < 100 := by omega
      have h2 : ¬ 999 < code := by omega
      have hne : code ≠ 0 := by omega
      refine ⟨?_, ?_, ?_, ?_, ?_⟩
      · simp [ResponseRecorder.WriteHeader, ResponseRecorder.SetHeader, NewRecorder, h1, h2]
      · simp [ResponseRecorder.WriteHeader, ResponseRecorder.SetHeader, NewRecorder,
          ResponseRecorder.Result, h1, h2]
      · simp [ResponseRecorder.WriteHeader, ResponseRecorder.SetHeader, NewRecorder,
          ResponseRecorder.Result, Header.Get, Header.Set, h1, h2]
      · intro h; omega
      · intro _
        simp [ResponseRecorder.WriteHeader, ResponseRecorder.SetHeader, NewRecorder,
          ResponseRecorder.Result, hne, h1, h2]
    · intro hr
      have h3 : code < 100 ∨ 999 < code := hr.2
      refine ⟨?_, ?_, ?_⟩
      · simp [ResponseRecorder.WriteHeader, ResponseRecorder.SetHeader, NewRecorder, h3]
      · simp [ResponseRecorder.WriteHeader, ResponseRecorder.SetHeader, NewRecorder, h3]
      · simp [ResponseRecorder.WriteHeader, ResponseRecorder.SetHeader, NewRecorder, h3]
  · have hH : (HandleAction sniff validators action NewRecorder r).1
        = (NewRecorder.SetHeader "Content-Type" "text/plain; charset=utf-8").WriteHeader 204 := by
      simp only [HandleAction, hv, hcall, hc, if_false]
    rw [hH]
    constructor
    · intro _
      refine ⟨?_, ?_, ?_, ?_, ?_⟩
      · simp [ResponseRecorder.WriteHeader, ResponseRecorder.SetHeader, NewRecorder]
      · simp [ResponseRecorder.WriteHeader, ResponseRecorder.SetHeader, NewRecorder,
          ResponseRecorder.Result]
      · simp [ResponseRecorder.WriteHeader, ResponseRecorder.SetHeader, NewRecorder,
          ResponseRecorder.Result, Header.Get, Header.Set]
      · intro _
        simp [ResponseRecorder.WriteHeader, ResponseRecorder.SetHeader, NewRecorder,
          ResponseRecorder.Result]
      · intro h; exact absurd h hc
    · intro hr
      exact absurd hr.1 hc

/-- C4, on an action returning nil with status 202: no panic, empty body, status 202. -/
theorem nil_result_response_witness :
    (HandleAction exampleSniff Registry.empty acceptedAction NewRecorder
        exampleRequest).1.panicked = none
      ∧ (HandleAction exampleSniff Registry.empty acceptedAction NewRecorder
        exampleRequest).1.Result.Body = []
      ∧ (HandleAction exampleSniff Registry.empty acceptedAction NewRecorder
        exampleRequest).1.Result.StatusCode = 202 :=
  have h := (nil_result_response exampleSniff Registry.empty acceptedAction exampleRequest
    202 rfl rfl).1 (Or.inr (by decide))
  ⟨h.1, h.2.1, h.2.2.2.2 (by decide)⟩

/-- C4 as stated fails at status 99: an action returning nil with status 99 makes
`WriteHeader` panic, and the status recorded is not 99. -/
theorem nil_result_status_99_panics :
    lowCodeAction.call (paramHandler exampleRequest) exampleRequest.ctx
        = (Result.nil, 99, none)
      ∧ (HandleAction exampleSniff Registry.empty lowCodeAction NewRecorder
          exampleRequest).1.panicked = some "invalid WriteHeader code 99"
      ∧ (HandleAction exampleSniff Registry.empty lowCodeAction NewRecorder
          exampleRequest).1.Result.StatusCode ≠ 99 := by
  refine ⟨rfl, ?_, ?_⟩ <;> decide

/-- C5 (amended): when a handler that passes validation returns a nil error and a string
`s` with status `code`, then for `code ≤ 0` or `100 ≤ code ≤ 999` no panic occurs, the
content type is `text/plain; charset=utf-8`, the body is the bytes of `s`, and the status
is `code` when `code > 0` and 200 when `code ≤ 0`; for any other positive `code`,
`WriteHeader` panics with `invalid WriteHeader code`, no header is written and no body
byte is written. -/
theorem string_result_response (sniff : Bytes → String) (validators : Registry)
    (action : ActionFunc) (r : Request) (s : String) (code : Int)
    (hval : (validate sniff validators action NewRecorder (paramHandler r) r.ctx).1 = true)
    (hcall : action.call (paramHandler r) r.ctx = (Result.string s, code, none)) :
    ((code ≤ 0 ∨ (100 ≤ code ∧ code ≤ 999)) →
        (HandleAction sniff validators action NewRecorder r).1.panicked = none
        ∧ (HandleAction sniff validators action NewRecorder r).1.Result.Header.Get
            "Content-Type" = "text/plain; charset=utf-8"
        ∧ (HandleAction sniff validators action NewRecorder r).1.Result.Body = bytes s
        ∧ (code > 0 →
            (HandleAction sniff validators action NewRecorder r).1.Result.StatusCode = code)
        ∧ (code ≤ 0 →
            (HandleAction sniff validators action NewRecorder r).1.Result.StatusCode = 200))
      ∧ ((0 < code ∧ (code < 100 ∨ 999 < code)) →
        (HandleAction sniff validators action NewRecorder r).1.panicked
            = some ("invalid WriteHeader code " ++ toString code)
        ∧ (HandleAction sniff validators action NewRecorder r).1.wroteHeader = false
        ∧ (HandleAction sniff validators action NewRecorder r).1.Body = []) := by
  obtain ⟨tr, hv⟩ := validate_pass sniff validators action NewRecorder _ _ hval
  have hH : (HandleAction sniff validators action NewRecorder r).1
      = ((NewRecorder.SetHeader "Content-Type" "text/plain; charset=utf-8").WriteHeader
          (if code ≤ 0 then 200 else code)).Write sniff (bytes s) := by
    simp only [HandleAction, hv, hcall]
  rw [hH]
  constructor
  · intro hr
    by_cases hc : code ≤ 0
    · refine ⟨?_, ?_, ?_, ?_, ?_⟩
      · simp [ResponseRecorder.Write, ResponseRecorder.WriteHeader,
          ResponseRecorder.SetHeader, NewRecorder, hc]
      · simp [ResponseRecorder.Write, ResponseRecorder.WriteHeader,
          ResponseRecorder.SetHeader, NewRecorder, ResponseRecorder.Result, Header.Get,
          Header.Set, hc]
      · simp [ResponseRecorder.Write, ResponseRecorder.WriteHeader,
          ResponseRecorder.SetHeader, NewRecorder, ResponseRecorder.Result, hc]
      · intro h; omega
      · intro _
        simp [ResponseRecorder.Write, ResponseRecorder.WriteHeader,
          ResponseRecorder.SetHeader, NewRecorder, ResponseRecorder.Result, hc]
    · have h1 : ¬ code < 100 := by omega
      have h2 : ¬ 999 < code := by omega
      have hne : code ≠ 0 := by omega
      refine ⟨?_, ?_, ?_, ?_, ?_⟩
      · simp [ResponseRecorder.Write, ResponseRecorder.WriteHeader,
          ResponseRecorder.SetHeader, NewRecorder, hc, h1, h2]
      · simp [ResponseRecorder.Write, ResponseRecorder.WriteHeader,
          ResponseRecorder.SetHeader, NewRecorder, ResponseRecorder.Result, Header.Get,
          Header.Set, hc, h1, h2]
      · simp [ResponseRecorder.Write, ResponseRecorder.WriteHeader,
          ResponseRecorder.SetHeader, NewRecorder, ResponseRecorder.Result, hc, h1, h2]
      · intro _
        simp [ResponseRecorder.Write, ResponseRecorder.WriteHeader,
          ResponseRecorder.SetHeader, NewRecorder, ResponseRecorder.Result, hc, h1, h2, hne]
      · intro h; exact absurd h hc
  · intro hr
    have hc : ¬ code ≤ 0 := by omega
    have h3 : code < 100 ∨ 999 < code := hr.2
    refine ⟨?_, ?_, ?_⟩
    · simp [ResponseRecorder.Write, ResponseRecorder.WriteHeader,
        ResponseRecorder.SetHeader, NewRecorder, hc, h3]
    · simp [ResponseRecorder.Write, ResponseRecorder.WriteHeader,
        ResponseRecorder.SetHeader, NewRecorder, hc, h3]
    · simp [ResponseRecorder.Write, ResponseRecorder.WriteHeader,
        ResponseRecorder.SetHeader, NewRecorder, hc, h3]

/-- C5, on the action of `TestHandleActionPlainText`: no panic, body `test`, status 200. -/
theorem string_result_response_witness :
    (HandleAction exampleSniff Registry.empty plainTextAction NewRecorder
        exampleRequest).1.panicked = none
      ∧ (HandleAction exampleSniff Registry.empty plainTextAction NewRecorder
        exampleRequest).1.Result.Body = bytes "test"
      ∧ (HandleAction exampleSniff Registry.empty plainTextAction NewRecorder
        exampleRequest).1.Result.StatusCode = 200 :=
  have h := (string_result_response exampleSniff Registry.empty plainTextAction
    exampleRequest "test" 200 rfl rfl).1 (Or.inr (by decide))
  ⟨h.1, h.2.2.1, h.2.2.2.1 (by decide)⟩

/-- C5 as stated fails at status 42: an action returning the string `x` with status 42
makes `WriteHeader` panic before any body byte is written; the body is not `x` and the
status recorded is not 42. -/
theorem string_result_status_42_panics :
    lowCodeStringAction.call (paramHandler exampleRequest) exampleRequest.ctx
        = (Result.string "x", 42, none)
      ∧ (HandleAction exampleSniff Registry.empty lowCodeStringAction NewRecorder
          exampleRequest).1.panicked = some "invalid WriteHeader code 42"
      ∧ (HandleAction exampleSniff Registry.empty lowCodeStringAction NewRecorder
          exampleRequest).1.Result.Body ≠ bytes "x"
      ∧ (HandleAction exampleSniff Registry.empty lowCodeStringAction NewRecorder
          exampleRequest).1.Result.StatusCode ≠ 42 := by
  refine ⟨rfl, ?_, ?_, ?_⟩ <;> decide

/-- C6: when a handler that passes validation returns a nil error and a resource function
yielding content type `T`, length `L` and a reader, the response content type is `T`, the
body is the bytes the reader delivers, in order, and the `Content-Length` header is the
decimal rendering of `L` when `L > 0` and absent when `L = 0`. -/
theorem resource_result_response (sniff : Bytes → String) (validators : Registry)
    (action : ActionFunc) (r : Request) (resource : ResourceFunc) (code : Int)
    (hval : (validate sniff validators action NewRecorder (paramHandler r) r.ctx).1 = true)
    (hcall : action.call (paramHandler r) r.ctx = (Result.func resource, code, none)) :
    (HandleAction sniff validators action NewRecorder r).1.Result.Header.Get "Content-Type"
        = resource.contenType
      ∧ (HandleAction sniff validators action NewRecorder r).1.Result.Body
        = resource.reader.content
      ∧ (resource.contentLength > 0 →
          (HandleAction sniff validators action NewRecorder r).1.Result.Header "Content-Length"
            = some (toString resource.contentLength))
      ∧ (resource.contentLength = 0 →
          (HandleAction sniff validators action NewRecorder r).1.Result.Header "Content-Length"
            = none) := by
  obtain ⟨tr, hv⟩ := validate_pass sniff validators action NewRecorder _ _ hval
  have hH : (HandleAction sniff validators action NewRecorder r).1
      = ioCopy sniff
          (if resource.contentLength > 0 then
            (NewRecorder.SetHeader "Content-Type" resource.contenType).SetHeader
              "Content-Length" (toString resource.contentLength)
           else NewRecorder.SetHeader "Content-Type" resource.contenType)
          resource.reader := by
    simp only [HandleAction, hv, hcall]
  rw [hH]
  by_cases hL : resource.contentLength > 0
  · have hL0 : resource.contentLength ≠ 0 := by omega
    rw [if_pos hL, ioCopy_typed sniff _ _ rfl
      (by simp [ResponseRecorder.SetHeader, NewRecorder, Header.Set]) rfl]
    by_cases hc : resource.reader.content = []
    · simp [hc, ResponseRecorder.SetHeader, NewRecorder, ResponseRecorder.Result, Header.Get,
        Header.Set, hL0]
    · simp [hc, ResponseRecorder.SetHeader, NewRecorder, ResponseRecorder.Result, Header.Get,
        Header.Set, hL0]
  · have hL0 : resource.contentLength = 0 := by omega
    rw [if_neg hL, ioCopy_typed sniff _ _ rfl
      (by simp [ResponseRecorder.SetHeader, NewRecorder, Header.Set]) rfl]
    by_cases hc : resource.reader.content = []
    · simp [hc, ResponseRecorder.SetHeader, NewRecorder, ResponseRecorder.Result, Header.Get,
        Header.Set, hL0]
    · simp [hc, ResponseRecorder.SetHeader, NewRecorder, ResponseRecorder.Result, Header.Get,
        Header.Set, hL0]

/-- C6, on the action of `TestHandleActionResource`: content type as given, body
`This is a test!`, `Content-Length: 15`. -/
theorem resource_result_response_witness :
    (HandleAction exampleSniff Registry.empty resourceAction NewRecorder
        exampleRequest).1.Result.Header.Get "Content-Type" = "text/plain; charset=utf=8"
      ∧ (HandleAction exampleSniff Registry.empty resourceAction NewRecorder
        exampleRequest).1.Result.Body = bytes "This is a test!"
      ∧ (HandleAction exampleSniff Registry.empty resourceAction NewRecorder
        exampleRequest).1.Result.Header "Content-Length" = some "15" :=
  have h := resource_result_response exampleSniff Registry.empty resourceAction
    exampleRequest testResource 200 rfl rfl
  ⟨h.1, h.2.1, h.2.2.1 (by decide)⟩

/-- C7: an action returning the resource of `TestHandleActionResource` with status 404 is
answered with status 200: the resource branch never passes the status to `WriteHeader`, so
the first `Write` of the copy implies 200. -/
theorem resource_status_not_written :
    resourceNotFoundAction.call (paramHandler exampleRequest) exampleRequest.ctx
        = (Result.func testResource, 404, none)
      ∧ (HandleAction exampleSniff Registry.empty resourceNotFoundAction NewRecorder
          exampleRequest).1.Result.StatusCode = 200
      ∧ (HandleAction exampleSniff Registry.empty resourceNotFoundAction NewRecorder
          exampleRequest).1.Result.Body = bytes "This is a test!" := by
  refine ⟨rfl, ?_, ?_⟩ <;> decide

/-- C8: an action returning a value of the named type `ResourceFunc` is answered through
the JSON branch: content type `application/json; charset=utf-8` and an empty body (the
encoder rejects a function value), not the resource's content type and bytes. -/
theorem named_resource_func_not_streamed :
    namedResourceAction.call (paramHandler exampleRequest) exampleRequest.ctx
        = (Result.other (GoValue.resourceFunc testResource), 200, none)
      ∧ (HandleAction exampleSniff Registry.empty namedResourceAction NewRecorder
          exampleRequest).1.Result.Header.Get "Content-Type"
        = "application/json; charset=utf-8"
      ∧ (HandleAction exampleSniff Registry.empty namedResourceAction NewRecorder
          exampleRequest).1.Result.Body = []
      ∧ testResource.contenType ≠ "application/json; charset=utf-8"
      ∧ testResource.reader.content ≠ [] := by
  refine ⟨rfl, ?_, ?_, ?_, ?_⟩ <;> decide

/-- C9: when a handler that passes validation returns a nil error and a reader whose
first read yields zero bytes with `io.EOF` or no error, the response status is 204,
whatever status the handler returned, and not a 500-class one. -/
theorem empty_reader_gives_204 (sniff : Bytes → String) (validators : Registry)
    (action : ActionFunc) (r : Request) (reader : Reader) (code : Int)
    (hval : (validate sniff validators action NewRecorder (paramHandler r) r.ctx).1 = true)
    (hcall : action.call (paramHandler r) r.ctx = (Result.reader reader, code, none))
    (hzero : (reader.Read 512).1 = [])
    (herr : (reader.Read 512).2.1 = none ∨ (reader.Read 512).2.1 = some Error.EOF) :
    (HandleAction sniff validators action NewRecorder r).1.Result.StatusCode = 204
      ∧ ¬ (500 ≤ (HandleAction sniff validators action NewRecorder r).1.Result.StatusCode) := by
  obtain ⟨tr, hv⟩ := validate_pass sniff validators action NewRecorder _ _ hval
  have hS : (sendReader sniff (if code ≤ 0 then 200 else code) reader NewRecorder).1
      = httpError sniff NewRecorder (StatusText 204) 204 := by
    rcases hr : reader.Read 512 with ⟨data, err, rest⟩
    rw [hr] at hzero herr
    simp only at hzero herr
    subst hzero
    have hne : ¬ (err ≠ none ∧ err ≠ some Error.EOF) := by
      rcases herr with h | h <;> simp [h]
    simp [sendReader, hr, hne]
  have hH : (HandleAction sniff validators action NewRecorder r).1
      = httpError sniff NewRecorder (StatusText 204) 204 := by
    simp only [HandleAction, hv, hcall]
    exact hS
  rw [hH]
  obtain ⟨r1, _, _⟩ := httpError_fresh_result sniff (StatusText 204) 204 (by decide)
  rw [r1]
  exact ⟨rfl, by decide⟩

/-- C9, on an action returning `strings.NewReader("")` with status 201: status 204. -/
theorem empty_reader_gives_204_witness :
    (HandleAction exampleSniff Registry.empty emptyReaderAction NewRecorder
        exampleRequest).1.Result.StatusCode = 204 :=
  (empty_reader_gives_204 exampleSniff Registry.empty emptyReaderAction exampleRequest
    [] 201 rfl rfl rfl (Or.inr rfl)).1

/-! ## Lemmas on the registry -/

theorem getValidators_eq (validators : Registry) (action : ActionFunc) :
    getValidators validators action = validators (toActionKey action) := by
  unfold getValidators
  cases h : validators (toActionKey action) <;> simp [h]

theorem getValidators_add_same (validators : Registry) (h : ActionFunc) (s : ValidationFunk) :
    getValidators (AddValidator validators h s) h
      = some ((getValidators validators h).getD [] ++ [s]) := by
  rw [getValidators_eq, getValidators_eq]
  unfold AddValidator
  cases hk : validators (toActionKey h) <;> simp [Registry.set, hk]

theorem getValidators_add_other (validators : Registry) (h : ActionFunc) (s : ValidationFunk)
    (h2 : ActionFunc) (hne : toActionKey h2 ≠ toActionKey h) :
    getValidators (AddValidator validators h s) h2 = getValidators validators h2 := by
  rw [getValidators_eq, getValidators_eq]
  unfold AddValidator
  cases hk : validators (toActionKey h) <;> simp [Registry.set, hne]

theorem getValidators_foldl (ops : List (ActionFunc × ValidationFunk)) (h : ActionFunc)
    (validators : Registry)
    (hne : ∀ op ∈ ops, toActionKey op.1 ≠ toActionKey h) :
    getValidators
        (ops.foldl (fun validators op => AddValidator validators op.1 op.2) validators) h
      = getValidators validators h := by
  induction ops generalizing validators with
  | nil => rfl
  | cons op rest ih =>
    rw [List.foldl_cons, ih _ (fun o ho => hne o (List.mem_cons_of_mem _ ho))]
    exact getValidators_add_other validators op.1 op.2 h
      (fun hk => hne op (List.mem_cons_self _ _) hk.symm)

theorem validatorCalls_sendReader (sniff : Bytes → String) (code : Int) (reader : Reader)
    (w : ResponseRecorder) : validatorCalls (sendReader sniff code reader w).2 = [] := by
  unfold sendReader
  rcases reader.Read 512 with ⟨data, err, rest⟩
  simp only
  split_ifs <;> rfl

theorem validatorCalls_HandleAction (sniff : Bytes → String) (validators : Registry)
    (action : ActionFunc) (w : ResponseRecorder) (r : Request) :
    validatorCalls (HandleAction sniff validators action w r).2
      = validatorCalls (validate sniff validators action w (paramHandler r) r.ctx).2.2 := by
  rcases hv : validate sniff validators action w (paramHandler r) r.ctx with ⟨ok, w1, tr⟩
  rcases hc : action.call (paramHandler r) r.ctx with ⟨result, code, err⟩
  cases ok with
  | false => simp only [HandleAction, hv]
  | true =>
    cases err with
    | some e => simp [HandleAction, hv, hc, validatorCalls_append, validatorCalls]
    | none =>
      cases result with
      | nil =>
        simp only [HandleAction, hv, hc]
        split_ifs <;> simp [validatorCalls_append, validatorCalls]
      | string s => simp [HandleAction, hv, hc, validatorCalls_append, validatorCalls]
      | func resource => simp [HandleAction, hv, hc, validatorCalls_append, validatorCalls]
      | reader rd =>
        simp [HandleAction, hv, hc, validatorCalls_append, validatorCalls,
          validatorCalls_sendReader]
      | other v => simp [HandleAction, hv, hc, validatorCalls_append, validatorCalls]

theorem validatorCalls_validate (sniff : Bytes → String) (validators : Registry)
    (action : ActionFunc) (w : ResponseRecorder) (ph : ParamHandler) (ctx : Context)
    (vs : List ValidationFunk) (hg : getValidators validators action = some vs) :
    validatorCalls (validate sniff validators action w ph ctx).2.2
      = validatorCalls (validateLoop ph ctx vs (NewErrors [])).2.2 := by
  unfold validate
  rw [hg]
  simp only
  rcases validateLoop ph ctx vs (NewErrors []) with ⟨e, el, tr⟩
  cases e with
  | some err => simp [validatorCalls_append, validatorCalls]
  | none => simp only []; split_ifs <;> rfl

/-- C10: the registry is append-only and does not deduplicate.  A handler whose key no
registration used has no list (`getValidators` returns nil); after `AddValidator(h, s)` the
list of `h` is its former list (empty if none) followed by `s`; the list of a handler with
a different key is unchanged; registering `s` twice puts it in the list twice, and a
request then calls it twice (the first call returning nil). -/
theorem registry_append_only :
    (∀ (ops : List (ActionFunc × ValidationFunk)) (h : ActionFunc),
        (∀ op ∈ ops, toActionKey op.1 ≠ toActionKey h) →
          getValidators (registerAll ops) h = none)
      ∧ (∀ (validators : Registry) (h : ActionFunc) (s : ValidationFunk),
          getValidators (AddValidator validators h s) h
            = some ((getValidators validators h).getD [] ++ [s]))
      ∧ (∀ (validators : Registry) (h : ActionFunc) (s : ValidationFunk) (h2 : ActionFunc),
          toActionKey h2 ≠ toActionKey h →
            getValidators (AddValidator validators h s) h2 = getValidators validators h2)
      ∧ (∀ (validators : Registry) (h : ActionFunc) (s : ValidationFunk),
          getValidators (AddValidator (AddValidator validators h s) h s) h
            = some ((getValidators validators h).getD [] ++ [s, s]))
      ∧ (∀ (sniff : Bytes → String) (h : ActionFunc) (s : ValidationFunk) (r : Request),
          stepError (paramHandler r) r.ctx s [] = none →
            validatorCalls
                (HandleAction sniff (AddValidator (AddValidator Registry.empty h s) h s) h
                  NewRecorder r).2
              = [s.ptr, s.ptr]) := by
  refine ⟨?_, getValidators_add_same, getValidators_add_other, ?_, ?_⟩
  · intro ops h hne
    unfold registerAll
    rw [getValidators_foldl ops h _ hne]
    rfl
  · intro validators h s
    rw [getValidators_add_same, getValidators_add_same]
    simp
  · intro sniff h s r hs
    have hg : getValidators (AddValidator (AddValidator Registry.empty h s) h s) h
        = some [s, s] := by
      rw [getValidators_add_same, getValidators_add_same]
      rfl
    rw [validatorCalls_HandleAction, validatorCalls_validate _ _ _ _ _ _ _ hg]
    have hfalse : (NewErrors []).HasError = false := rfl
    have h1 : ((s.call (paramHandler r) r.ctx).outcome false).2 = none := hs
    simp only [validateLoop, Validation.run_eq, hfalse, h1]
    cases h2 : ((s.call (paramHandler r) r.ctx).outcome
        ({ Errors := (NewErrors []).Errors ++
            ((s.call (paramHandler r) r.ctx).outcome false).1 } : errorsList).HasError).2 with
    | none => simp [validatorCalls, validatorCalls_append, validatorCalls_addError]
    | some e => simp [validatorCalls, validatorCalls_append, validatorCalls_addError]

/-- C10, on concrete registrations: a handler that was not registered has no list, and a
step registered twice is listed twice and called twice. -/
theorem registry_append_only_witness :
    getValidators (registerAll [(negativeAction, negativeStep1)]) plainTextAction = none
      ∧ getValidators (AddValidator negativeRegistry plainTextAction negativeStep1)
          negativeAction = some [negativeStep1, negativeStep2]
      ∧ validatorCalls
          (HandleAction exampleSniff
            (AddValidator (AddValidator Registry.empty negativeAction negativeStep1)
              negativeAction negativeStep1)
            negativeAction NewRecorder exampleRequest).2
        = [negativeStep1.ptr, negativeStep1.ptr] :=
  ⟨registry_append_only.1 [(negativeAction, negativeStep1)] plainTextAction (by decide),
    (registry_append_only.2.2.1 negativeRegistry plainTextAction negativeStep1 negativeAction
      (by decide)).trans rfl,
    registry_append_only.2.2.2.2 exampleSniff negativeAction negativeStep1 exampleRequest rfl⟩

/-! ## Lemmas on UTF-8 -/

theorem char_toNat_valid (c : Char) :
    c.toNat < 0xD800 ∨ (0xDFFF < c.toNat ∧ c.toNat < 0x110000) := c.valid

theorem decodeRune_encodeChar (c : Char) (bs : Bytes) :
    decodeRune (utf8EncodeChar c ++ bs) = some (c, bs) := by
  have hv := char_toNat_valid c
  have hc : Char.ofNat c.toNat = c := Char.ofNat_toNat c
  unfold utf8EncodeChar
  simp only
  by_cases h1 : c.toNat < 0x80
  · simp only [h1, if_true, List.singleton_append, decodeRune, hc]
  · by_cases h2 : c.toNat < 0x800
    · have e : (0xC0 + c.toNat / 64 - 0xC0) * 64 + (0x80 + c.toNat % 64 - 0x80) = c.toNat := by
        omega
      have a1 : ¬ (0xC0 + c.toNat / 64 < 0x80) := by omega
      have a2 : ¬ (0xC0 + c.toNat / 64 < 0xC0) := by omega
      have a3 : 0xC0 + c.toNat / 64 < 0xE0 := by omega
      have a4 : isContinuation (0x80 + c.toNat % 64) = true := by
        simp [isContinuation]; omega
      have a5 : 0x80 ≤ c.toNat := by omega
      simp only [h1, h2, if_true, if_false, List.cons_append, List.nil_append, decodeRune,
        a1, a2, a3, a4, e, a5, hc, decide_True, Bool.and_self]
    · by_cases h3 : c.toNat < 0x10000
      · have e : (0xE0 + c.toNat / 4096 - 0xE0) * 4096 + (0x80 + c.toNat / 64 % 64 - 0x80) * 64
            + (0x80 + c.toNat % 64 - 0x80) = c.toNat := by omega
        have a1 : ¬ (0xE0 + c.toNat / 4096 < 0x80) := by omega
        have a2 : ¬ (0xE0 + c.toNat / 4096 < 0xC0) := by omega
        have a3 : ¬ (0xE0 + c.toNat / 4096 < 0xE0) := by omega
        have a4 : 0xE0 + c.toNat / 4096 < 0xF0 := by omega
        have a5 : isContinuation (0x80 + c.toNat / 64 % 64) = true := by
          simp [isContinuation]; omega
        have a6 : isContinuation (0x80 + c.toNat % 64) = true := by
          simp [isContinuation]; omega
        have a7 : 0x800 ≤ c.toNat := by omega
        have a8 : ¬ (0xD800 ≤ c.toNat) ∨ ¬ (c.toNat ≤ 0xDFFF) := by omega
        have a9 : (!(decide (0xD800 ≤ c.toNat) && decide (c.toNat ≤ 0xDFFF))) = true := by
          rcases a8 with h | h <;> simp [h]
        simp only [h1, h2, h3, if_true, if_false, List.cons_append, List.nil_append,
          decodeRune, a1, a2, a3, a4, a5, a6, e, a7, a9, hc, decide_True, Bool.and_self]
      · have e : (0xF0 + c.toNat / 262144 - 0xF0) * 262144
            + (0x80 + c.toNat / 4096 % 64 - 0x80) * 4096
            + (0x80 + c.toNat / 64 % 64 - 0x80) * 64
            + (0x80 + c.toNat % 64 - 0x80) = c.toNat := by omega
        have a1 : ¬ (0xF0 + c.toNat / 262144 < 0x80) := by omega
        have a2 : ¬ (0xF0 + c.toNat / 262144 < 0xC0) := by omega
        have a3 : ¬ (0xF0 + c.toNat / 262144 < 0xE0) := by omega
        have a4 : ¬ (0xF0 + c.toNat / 262144 < 0xF0) := by omega
        have a4b : 0xF0 + c.toNat / 262144 < 0xF8 := by omega
        have a5 : isContinuation (0x80 + c.toNat / 4096 % 64) = true := by
          simp [isContinuation]; omega
        have a6 : isContinuation (0x80 + c.toNat / 64 % 64) = true := by
          simp [isContinuation]; omega
        have a6b : isContinuation (0x80 + c.toNat % 64) = true := by
          simp [isContinuation]; omega
        have a7 : 0x10000 ≤ c.toNat := by omega
        have a8 : c.toNat ≤ 0x10FFFF := by omega
        simp only [h1, h2, h3, if_true, if_false, List.cons_append, List.nil_append,
          decodeRune, a1, a2, a3, a4, a4b, a5, a6, a6b, e, a7, a8, hc, decide_True,
          Bool.and_self]

theorem utf8EncodeChar_ne_nil (c : Char) : utf8EncodeChar c ≠ [] := by
  unfold utf8EncodeChar
  simp only
  split_ifs <;> simp

theorem utf8DecodeAux_encode (cs : List Char) (fuel : Nat) (h : cs.length ≤ fuel) :
    utf8DecodeAux fuel (utf8Encode cs) = some cs := by
  induction cs generalizing fuel with
  | nil => cases fuel <;> rfl
  | cons c cs ih =>
    cases fuel with
    | zero => simp at h
    | succ fuel =>
      have hlen : cs.length ≤ fuel := by simpa using h
      rw [utf8Encode]
      cases hb : utf8EncodeChar c with
      | nil => exact absurd hb (utf8EncodeChar_ne_nil c)
      | cons b bs =>
        rw [List.cons_append, utf8DecodeAux, ← List.cons_append, ← hb,
          decodeRune_encodeChar]
        simp [ih fuel hlen]

theorem utf8Encode_length (cs : List Char) : cs.length ≤ (utf8Encode cs).length := by
  induction cs with
  | nil => simp [utf8Encode]
  | cons c cs ih =>
    have h := utf8EncodeChar_ne_nil c
    have : 1 ≤ (utf8EncodeChar c).length := by
      cases hb : utf8EncodeChar c with
      | nil => exact absurd hb h
      | cons b bs => simp
    simp only [utf8Encode, List.length_append, List.length_cons]
    omega

theorem utf8Decode_bytes (s : String) : utf8Decode (bytes s) = some s.data :=
  utf8DecodeAux_encode s.data _ (utf8Encode_length s.data)

/-! ## Lemmas on string literals -/

theorem unquoteAux_quote (fuel : Nat) (c : Char) (rest : List Char) (h : c.toNat = 34) :
    unquoteAux (fuel + 1) (c :: rest) = some ([], rest) := by
  rw [unquoteAux]
  simp [h]

theorem unquoteAux_backslash (fuel : Nat) (c ch : Char) (rest rest1 : List Char)
    (h : c.toNat = 92) (hu : unescape rest = some (ch, rest1)) :
    unquoteAux (fuel + 1) (c :: rest)
      = (unquoteAux fuel rest1).map (fun p => (ch :: p.1, p.2)) := by
  rw [unquoteAux]
  simp [h, hu]

theorem unquoteAux_plain (fuel : Nat) (c : Char) (rest : List Char)
    (h1 : c.toNat ≠ 34) (h2 : c.toNat ≠ 92) (h3 : ¬ c.toNat < 32) :
    unquoteAux (fuel + 1) (c :: rest)
      = (unquoteAux fuel rest).map (fun p => (c :: p.1, p.2)) := by
  rw [unquoteAux]
  simp [h1, h2, h3]

theorem unescape_simple (e ch : Char) (rest : List Char) (h : e.toNat ≠ 117)
    (hs : simpleEscape e = some ch) : unescape (e :: rest) = some (ch, rest) := by
  unfold unescape
  simp [h, hs]

theorem unescape_u4 (u a b c d : Char) (rest : List Char) (v : Nat) (h : u.toNat = 117)
    (hg : getu4 a b c d = some v) (hv : ¬ (0xD800 ≤ v ∧ v < 0xE000)) :
    unescape (u :: a :: b :: c :: d :: rest) = some (Char.ofNat v, rest) := by
  unfold unescape
  simp only [h, if_true, hg, hv, if_false]

theorem getu4_low : ∀ v < 64,
    getu4 (Char.ofNat 48) (Char.ofNat 48) (Nat.digitChar (v / 16)) (Nat.digitChar (v % 16))
      = some v := by
  decide

theorem char_eq_of_toNat (c : Char) (n : Nat) (h : c.toNat = n) : Char.ofNat n = c := by
  rw [← h]; exact Char.ofNat_toNat c

theorem unquoteAux_escapeChar (c : Char) (tail : List Char) (fuel : Nat) :
    unquoteAux (fuel + 1) ((jsonEscapeChar c).data ++ tail)
      = (unquoteAux fuel tail).map (fun p => (c :: p.1, p.2)) := by
  unfold jsonEscapeChar
  simp only
  have two : ∀ (e ch : Char), e.toNat ≠ 117 → simpleEscape e = some ch → ch = c →
      unquoteAux (fuel + 1) ((String.mk [Char.ofNat 92, e]).data ++ tail)
        = (unquoteAux fuel tail).map (fun p => (c :: p.1, p.2)) := by
    intro e ch he hs hch
    show unquoteAux (fuel + 1) (Char.ofNat 92 :: e :: tail) = _
    rw [unquoteAux_backslash fuel _ ch (e :: tail) tail (by decide)
      (unescape_simple e ch tail he hs), hch]
  by_cases h34 : c.toNat = 34
  · rw [if_pos h34]
    exact two (Char.ofNat 34) (Char.ofNat 34) (by decide) (by decide)
      (char_eq_of_toNat c 34 h34)
  rw [if_neg h34]
  by_cases h92 : c.toNat = 92
  · rw [if_pos h92]
    exact two (Char.ofNat 92) (Char.ofNat 92) (by decide) (by decide)
      (char_eq_of_toNat c 92 h92)
  rw [if_neg h92]
  by_cases h8 : c.toNat = 8
  · rw [if_pos h8]
    exact two (Char.ofNat 98) (Char.ofNat 8) (by decide) (by decide)
      (char_eq_of_toNat c 8 h8)
  rw [if_neg h8]
  by_cases h12 : c.toNat = 12
  · rw [if_pos h12]
    exact two (Char.ofNat 102) (Char.ofNat 12) (by decide) (by decide)
      (char_eq_of_toNat c 12 h12)
  rw [if_neg h12]
  by_cases h10 : c.toNat = 10
  · rw [if_pos h10]
    exact two (Char.ofNat 110) (Char.ofNat 10) (by decide) (by decide)
      (char_eq_of_toNat c 10 h10)
  rw [if_neg h10]
  by_cases h13 : c.toNat = 13
  · rw [if_pos h13]
    exact two (Char.ofNat 114) (Char.ofNat 13) (by decide) (by decide)
      (char_eq_of_toNat c 13 h13)
  rw [if_neg h13]
  by_cases h9 : c.toNat = 9
  · rw [if_pos h9]
    exact two (Char.ofNat 116) (Char.ofNat 9) (by decide) (by decide)
      (char_eq_of_toNat c 9 h9)
  rw [if_neg h9]
  by_cases hx : (decide (c.toNat < 32) || decide (c.toNat = 38) || decide (c.toNat = 60)
      || decide (c.toNat = 62)) = true
  · rw [if_pos hx]
    have hlt : c.toNat < 64 := by
      simp only [Bool.or_eq_true, decide_eq_true_eq] at hx
      omega
    show unquoteAux (fuel + 1)
      (Char.ofNat 92 :: Char.ofNat 117 :: Char.ofNat 48 :: Char.ofNat 48 ::
        Nat.digitChar (c.toNat / 16) :: Nat.digitChar (c.toNat % 16) :: tail) = _
    rw [unquoteAux_backslash fuel _ (Char.ofNat c.toNat) _ tail (by decide)
      (unescape_u4 _ _ _ _ _ tail c.toNat (by decide) (getu4_low c.toNat hlt) (by omega)),
      Char.ofNat_toNat]
  rw [if_neg hx]
  have hge : ¬ c.toNat < 32 := by
    simp only [Bool.or_eq_true, decide_eq_true_eq, not_or] at hx
    exact hx.1.1.1
  by_cases h2028 : c.toNat = 0x2028
  · rw [if_pos h2028]
    show unquoteAux (fuel + 1)
      (Char.ofNat 92 :: Char.ofNat 117 :: Char.ofNat 50 :: Char.ofNat 48 ::
        Char.ofNat 50 :: Char.ofNat 56 :: tail) = _
    rw [unquoteAux_backslash fuel _ (Char.ofNat 0x2028) _ tail (by decide)
      (unescape_u4 _ _ _ _ _ tail 0x2028 (by decide) (by decide) (by omega)),
      char_eq_of_toNat c 0x2028 h2028]
  rw [if_neg h2028]
  by_cases h2029 : c.toNat = 0x2029
  · rw [if_pos h2029]
    show unquoteAux (fuel + 1)
      (Char.ofNat 92 :: Char.ofNat 117 :: Char.ofNat 50 :: Char.ofNat 48 ::
        Char.ofNat 50 :: Char.ofNat 57 :: tail) = _
    rw [unquoteAux_backslash fuel _ (Char.ofNat 0x2029) _ tail (by decide)
      (unescape_u4 _ _ _ _ _ tail 0x2029 (by decide) (by decide) (by omega)),
      char_eq_of_toNat c 0x2029 h2029]
  rw [if_neg h2029]
  show unquoteAux (fuel + 1) (c :: tail) = _
  exact unquoteAux_plain fuel c tail h34 h92 hge

/-- The characters the encoder writes for the characters of a string. -/
theorem jsonString_data (s : String) :
    (jsonString s).data
      = Char.ofNat 34 :: ((s.data.map fun c => (jsonEscapeChar c).data).flatten
          ++ [Char.ofNat 34]) := by
  simp [jsonString, String.data_append, String.data_join, List.map_map, Function.comp_def]

theorem unquoteAux_escaped (cs : List Char) (rest : List Char) (fuel : Nat)
    (h : cs.length + 1 ≤ fuel) :
    unquoteAux fuel ((cs.map fun c => (jsonEscapeChar c).data).flatten
        ++ Char.ofNat 34 :: rest) = some (cs, rest) := by
  induction cs generalizing fuel with
  | nil =>
    cases fuel with
    | zero => simp at h
    | succ fuel => exact unquoteAux_quote fuel _ rest (by decide)
  | cons c cs ih =>
    cases fuel with
    | zero => simp at h
    | succ fuel =>
      have hlen : cs.length + 1 ≤ fuel := by simpa using h
      rw [List.map_cons, List.flatten_cons, List.append_assoc, unquoteAux_escapeChar,
        ih fuel hlen]
      rfl

theorem jsonEscapeChar_ne_nil (c : Char) : (jsonEscapeChar c).data ≠ [] := by
  unfold jsonEscapeChar
  simp only
  split_ifs <;> first | decide | simp [jsonHexEscape, String.data_append]

theorem escaped_length (cs : List Char) :
    cs.length ≤ ((cs.map fun c => (jsonEscapeChar c).data).flatten).length := by
  induction cs with
  | nil => simp
  | cons c cs ih =>
    have h := jsonEscapeChar_ne_nil c
    have : 1 ≤ (jsonEscapeChar c).data.length := by
      cases hb : (jsonEscapeChar c).data with
      | nil => exact absurd hb h
      | cons b bs => simp
    simp only [List.map_cons, List.flatten_cons, List.length_append, List.length_cons]
    omega

theorem unquote_jsonString (s : String) (rest : List Char) :
    unquote ((jsonString s).data.tail ++ rest) = some (s.data, rest) := by
  rw [jsonString_data]
  simp only [List.tail_cons, List.append_assoc, List.singleton_append]
  unfold unquote
  apply unquoteAux_escaped
  have := escaped_length s.data
  simp only [List.length_append, List.length_cons]
  omega

/-! ## Lemmas on number literals -/

theorem digitChar_toNat : ∀ k < 10, (Nat.digitChar k).toNat = 48 + k := by
  decide

theorem digitsValue_append (ds : List Char) (d : Char) :
    digitsValue (ds ++ [d]) = digitsValue ds * 10 + (d.toNat - 48) := by
  simp [digitsValue, List.foldl_append]

theorem toDigitsCore_spec (fuel n : Nat) (acc : List Char) (h : n < fuel) :
    ∃ ds, Nat.toDigitsCore 10 fuel n acc = ds ++ acc
      ∧ ds ≠ []
      ∧ (∀ c ∈ ds, isDigit c = true)
      ∧ digitsValue ds = n
      ∧ (n ≠ 0 → (ds.headD (Char.ofNat 48)).toNat ≠ 48)
      ∧ (n = 0 → ds.length = 1) := by
  induction fuel generalizing n acc with
  | zero => omega
  | succ fuel ih =>
    have hd : (Nat.digitChar (n % 10)).toNat = 48 + n % 10 :=
      digitChar_toNat (n % 10) (Nat.mod_lt _ (by decide))
    have hdig : isDigit (Nat.digitChar (n % 10)) = true := by
      have : n % 10 < 10 := Nat.mod_lt _ (by decide)
      simp only [isDigit, hd, Bool.and_eq_true, decide_eq_true_eq]
      omega
    by_cases h0 : n / 10 = 0
    · refine ⟨[Nat.digitChar (n % 10)], ?_, by simp, ?_, ?_, ?_, ?_⟩
      · simp [Nat.toDigitsCore, h0]
      · intro c hc
        simp only [List.mem_singleton] at hc
        rw [hc]; exact hdig
      · simp only [digitsValue, List.foldl_cons, List.foldl_nil, hd]
        omega
      · intro hn
        simp only [List.headD_cons, hd]
        omega
      · intro _; rfl
    · obtain ⟨ds, h1, h2, h3, h4, h5, _⟩ :=
        ih (n / 10) (Nat.digitChar (n % 10) :: acc) (by omega)
      refine ⟨ds ++ [Nat.digitChar (n % 10)], ?_, by simp, ?_, ?_, ?_, ?_⟩
      · simp [Nat.toDigitsCore, h0, h1]
      · intro c hc
        rcases List.mem_append.mp hc with hc | hc
        · exact h3 c hc
        · simp only [List.mem_singleton] at hc
          rw [hc]; exact hdig
      · rw [digitsValue_append, h4, hd]
        omega
      · intro _
        cases ds with
        | nil => exact absurd rfl h2
        | cons a as => exact h5 h0
      · intro hn
        omega

theorem takeWhile_digits (ds rest : List Char) (hds : ∀ c ∈ ds, isDigit c = true)
    (hrest : ∀ c ∈ rest.head?, isDigit c = false) :
    (ds ++ rest).takeWhile isDigit = ds ∧ (ds ++ rest).dropWhile isDigit = rest := by
  induction ds with
  | nil =>
    cases rest with
    | nil => simp
    | cons c cs =>
      have := hrest c (by simp)
      simp [List.takeWhile, List.dropWhile, this]
  | cons d ds ih =>
    have hd := hds d (List.mem_cons_self _ _)
    have ih2 := ih (fun c hc => hds c (List.mem_cons_of_mem _ hc))
    simp [List.takeWhile, List.dropWhile, hd, ih2]

theorem parseNat_repr (n : Nat) (rest : List Char)
    (hrest : ∀ c ∈ rest.head?,
      c.toNat = 44 ∨ c.toNat = 93 ∨ c.toNat = 125 ∨ c.toNat = 10) :
    parseNat ((Nat.repr n).data ++ rest) = some (n, rest) := by
  obtain ⟨ds, h1, h2, h3, h4, h5, h6⟩ := toDigitsCore_spec (n + 1) n [] (by omega)
  have hdata : (Nat.repr n).data = ds := by
    show Nat.toDigitsCore 10 (n + 1) n [] = ds
    rw [h1]; simp
  have hnd : ∀ c ∈ rest.head?, isDigit c = false := by
    intro c hc
    have := hrest c hc
    simp only [isDigit, Bool.and_eq_false_iff, decide_eq_false_iff_not]
    omega
  obtain ⟨t1, t2⟩ := takeWhile_digits ds rest h3 hnd
  have hempty : ds.isEmpty = false := by
    cases ds with
    | nil => exact absurd rfl h2
    | cons a as => rfl
  have hlead : (decide (ds.length > 1)
      && decide ((ds.headD (Char.ofNat 48)).toNat = 48)) = false := by
    by_cases hn : n = 0
    · have := h6 hn
      simp [this]
    · have := h5 hn
      simp only [Bool.and_eq_false_iff, decide_eq_false_iff_not]
      exact Or.inr this
  unfold parseNat
  simp only [hdata, t1, t2, hempty, hlead, Bool.false_eq_true, if_false, h4]
  cases rest with
  | nil => rfl
  | cons c cs =>
    have := hrest c (by simp)
    have hc : ¬ (c.toNat = 46 ∨ c.toNat = 101 ∨ c.toNat = 69) := by omega
    simp only [hc, if_false]

theorem repr_head (n : Nat) :
    ∃ d ds, (Nat.repr n).data = d :: ds ∧ d.toNat ≠ 45 := by
  obtain ⟨ds, h1, h2, h3, _⟩ := toDigitsCore_spec (n + 1) n [] (by omega)
  have hdata : (Nat.repr n).data = ds := by
    show Nat.toDigitsCore 10 (n + 1) n [] = ds
    rw [h1]; simp
  cases ds with
  | nil => exact absurd rfl h2
  | cons d ds =>
    refine ⟨d, ds, hdata, ?_⟩
    have := h3 d (List.mem_cons_self _ _)
    simp only [isDigit, Bool.and_eq_true, decide_eq_true_eq] at this
    omega

theorem parseNumber_toString (i : Int) (rest : List Char)
    (hrest : ∀ c ∈ rest.head?,
      c.toNat = 44 ∨ c.toNat = 93 ∨ c.toNat = 125 ∨ c.toNat = 10) :
    parseNumber ((toString i).data ++ rest) = some (i, rest) := by
  cases i with
  | ofNat m =>
    show parseNumber ((Nat.repr m).data ++ rest) = _
    obtain ⟨d, ds, hd, hne⟩ := repr_head m
    have hp := parseNat_repr m rest hrest
    rw [hd] at hp ⊢
    rw [List.cons_append] at hp ⊢
    rw [parseNumber]
    simp only [hne, if_false, hp, Option.map_some']
    rfl
  | negSucc m =>
    show parseNumber (("-" ++ Nat.repr (m + 1)).data ++ rest) = _
    have hp := parseNat_repr (m + 1) rest hrest
    rw [String.data_append]
    show parseNumber (Char.ofNat 45 :: ((Nat.repr (m + 1)).data ++ rest)) = _
    rw [parseNumber]
    have h45 : (Char.ofNat 45).toNat = 45 := by decide
    simp only [h45, if_true, hp, Option.map_some']
    rfl

/-! ## Lemmas on the decoder -/

theorem intercalate_go_data (acc s : String) (l : List String) :
    (String.intercalate.go acc s l).data
      = acc.data ++ (l.map fun a => s.data ++ a.data).flatten := by
  induction l generalizing acc with
  | nil => simp [String.intercalate.go]
  | cons a l ih => simp [String.intercalate.go, ih, String.data_append, List.append_assoc]

theorem intercalate_single (x : String) : ",".intercalate [x] = x := rfl

theorem intercalate_cons_cons (x y : String) (ys : List String) :
    (",".intercalate (x :: y :: ys)).data
      = x.data ++ Char.ofNat 44 :: (",".intercalate (y :: ys)).data := by
  show (String.intercalate.go x "," (y :: ys)).data
    = x.data ++ Char.ofNat 44 :: (String.intercalate.go y "," ys).data
  rw [intercalate_go_data, intercalate_go_data]
  simp

theorem skipSpace_cons (c : Char) (cs : List Char) (h : isJsonSpace c = false) :
    skipSpace (c :: cs) = c :: cs := by
  simp [skipSpace, List.dropWhile, h]

theorem isJsonSpace_of_start (c : Char) (h : isValueStart c = true) :
    isJsonSpace c = false := by
  simp only [isValueStart, isDigit, Bool.or_eq_true, beq_iff_eq, Bool.and_eq_true,
    decide_eq_true_eq] at h
  simp only [isJsonSpace, Bool.or_eq_false_iff, beq_eq_false_iff_ne, ne_eq]
  omega

theorem isValueStart_of_sign_or_digit (d : Char)
    (h : d.toNat = 45 ∨ isDigit d = true) : isValueStart d = true := by
  rcases h with h | h <;> simp [isValueStart, h]

theorem toString_int_head (i : Int) :
    ∃ d ds, (toString i).data = d :: ds ∧ (d.toNat = 45 ∨ isDigit d = true) := by
  cases i with
  | ofNat m =>
    obtain ⟨ds, h1, h2, h3, _⟩ := toDigitsCore_spec (m + 1) m [] (by omega)
    have hdata : (toString (Int.ofNat m)).data = ds := by
      show Nat.toDigitsCore 10 (m + 1) m [] = ds
      rw [h1]; simp
    cases ds with
    | nil => exact absurd rfl h2
    | cons d ds => exact ⟨d, ds, hdata, Or.inr (h3 d (List.mem_cons_self _ _))⟩
  | negSucc m =>
    refine ⟨Char.ofNat 45, (Nat.repr (m + 1)).data, ?_, Or.inl (by decide)⟩
    show ("-" ++ Nat.repr (m + 1)).data = _
    rw [String.data_append]
    rfl

theorem marshal_head (v : GoValue) (text : String) (h : marshal v = some text) :
    ∃ c cs, text.data = c :: cs ∧ isValueStart c = true := by
  cases v with
  | null =>
    simp only [marshal, Option.some.injEq] at h
    subst h
    exact ⟨_, _, rfl, by decide⟩
  | bool b =>
    simp only [marshal, Option.some.injEq] at h
    subst h
    cases b
    · exact ⟨_, _, rfl, by decide⟩
    · exact ⟨_, _, rfl, by decide⟩
  | int i =>
    simp only [marshal, Option.some.injEq] at h
    subst h
    obtain ⟨d, ds, hd, hsd⟩ := toString_int_head i
    exact ⟨d, ds, hd, isValueStart_of_sign_or_digit d hsd⟩
  | str s =>
    simp only [marshal, Option.some.injEq] at h
    subst h
    exact ⟨_, _, jsonString_data s, by decide⟩
  | array items =>
    simp only [marshal, Option.map_eq_some'] at h
    obtain ⟨xs, _, rfl⟩ := h
    refine ⟨Char.ofNat 91, ((",".intercalate xs).data ++ [Char.ofNat 93]), ?_, by decide⟩
    simp [String.data_append]
  | object fields =>
    simp only [marshal, Option.map_eq_some'] at h
    obtain ⟨xs, _, rfl⟩ := h
    refine ⟨Char.ofNat 123, ((",".intercalate xs).data ++ [Char.ofNat 125]), ?_, by decide⟩
    simp [String.data_append]
  | resourceFunc f => simp [marshal] at h
  | unsupported => simp [marshal] at h

theorem delimited_cons (c : Char) (cs : List Char)
    (h : c.toNat = 44 ∨ c.toNat = 93 ∨ c.toNat = 125 ∨ c.toNat = 10) :
    delimited (c :: cs) := by
  intro d hd
  simp only [List.head?_cons, Option.mem_def, Option.some.injEq] at hd
  rw [← hd]; exact h

mutual
theorem parseValue_marshal : ∀ (v : GoValue) (text : String) (fuel : Nat)
    (rest : List Char), marshal v = some text → v.float64Exact = true → v.depth ≤ fuel →
    delimited rest → parseValue fuel (text.data ++ rest) = some (v, rest)
  | .null, text, fuel, rest, hm, _, hd, _ => by
    simp only [marshal, Option.some.injEq] at hm
    subst hm
    obtain ⟨f, rfl⟩ : ∃ f, fuel = f + 1 := ⟨fuel - 1, by simp [GoValue.depth] at hd; omega⟩
    show parseValue (f + 1)
      (Char.ofNat 110 :: Char.ofNat 117 :: Char.ofNat 108 :: Char.ofNat 108 :: rest) = _
    rw [parseValue, skipSpace_cons _ _ (by decide)]
    simp [expectLiteral, List.isPrefixOf]
  | .bool true, text, fuel, rest, hm, _, hd, _ => by
    simp only [marshal, Option.some.injEq] at hm
    subst hm
    obtain ⟨f, rfl⟩ : ∃ f, fuel = f + 1 := ⟨fuel - 1, by simp [GoValue.depth] at hd; omega⟩
    show parseValue (f + 1)
      (Char.ofNat 116 :: Char.ofNat 114 :: Char.ofNat 117 :: Char.ofNat 101 :: rest) = _
    rw [parseValue, skipSpace_cons _ _ (by decide)]
    simp [expectLiteral, List.isPrefixOf]
  | .bool false, text, fuel, rest, hm, _, hd, _ => by
    simp only [marshal, Option.some.injEq] at hm
    subst hm
    obtain ⟨f, rfl⟩ : ∃ f, fuel = f + 1 := ⟨fuel - 1, by simp [GoValue.depth] at hd; omega⟩
    show parseValue (f + 1)
      (Char.ofNat 102 :: Char.ofNat 97 :: Char.ofNat 108 :: Char.ofNat 115 ::
        Char.ofNat 101 :: rest) = _
    rw [parseValue, skipSpace_cons _ _ (by decide)]
    simp [expectLiteral, List.isPrefixOf]
  | .int i, text, fuel, rest, hm, hx, hd, hr => by
    simp only [marshal, Option.some.injEq] at hm
    subst hm
    obtain ⟨f, rfl⟩ : ∃ f, fuel = f + 1 := ⟨fuel - 1, by simp [GoValue.depth] at hd; omega⟩
    obtain ⟨d, ds, hdata, hsd⟩ := toString_int_head i
    have hstart : isValueStart d = true := isValueStart_of_sign_or_digit d hsd
    have hp := parseNumber_toString i rest hr
    rw [hdata] at hp ⊢
    rw [List.cons_append] at hp ⊢
    rw [parseValue, skipSpace_cons _ _ (isJsonSpace_of_start d hstart)]
    have hcases : d.toNat = 45 ∨ (48 ≤ d.toNat ∧ d.toNat ≤ 57) := by
      rcases hsd with h | h
      · exact Or.inl h
      · simp only [isDigit, Bool.and_eq_true, decide_eq_true_eq] at h
        exact Or.inr h
    have n1 : ¬ d.toNat = 34 := by omega
    have n2 : ¬ d.toNat = 91 := by omega
    have n3 : ¬ d.toNat = 123 := by omega
    have n4 : ¬ d.toNat = 110 := by omega
    have n5 : ¬ d.toNat = 116 := by omega
    have n6 : ¬ d.toNat = 102 := by omega
    have hcv : convertNumber i = some i := by
      simpa [GoValue.float64Exact] using hx
    simp only [n1, n2, n3, n4, n5, n6, if_false, hp, Option.some_bind, hcv, Option.map_some']
  | .str s, text, fuel, rest, hm, _, hd, _ => by
    simp only [marshal, Option.some.injEq] at hm
    subst hm
    obtain ⟨f, rfl⟩ : ∃ f, fuel = f + 1 := ⟨fuel - 1, by simp [GoValue.depth] at hd; omega⟩
    have hu := unquote_jsonString s rest
    rw [jsonString_data] at hu ⊢
    rw [List.tail_cons] at hu
    rw [List.cons_append, parseValue, skipSpace_cons _ _ (by decide)]
    have h34 : (Char.ofNat 34).toNat = 34 := by decide
    simp only [h34, if_true, hu, Option.map_some']
  | .array items, text, fuel, rest, hm, hx, hd, _ => by
    simp only [marshal, Option.map_eq_some'] at hm
    obtain ⟨xs, hxs, rfl⟩ := hm
    have hd2 : depthItems items + 1 ≤ fuel := by simpa [GoValue.depth] using hd
    obtain ⟨f, rfl⟩ : ∃ f, fuel = f + 1 := ⟨fuel - 1, by omega⟩
    have hdata : ("[" ++ ",".intercalate xs ++ "]").data ++ rest
        = Char.ofNat 91 :: ((",".intercalate xs).data ++ Char.ofNat 93 :: rest) := by
      simp [String.data_append]
    rw [hdata, parseValue, skipSpace_cons _ _ (by decide)]
    have h91 : (Char.ofNat 91).toNat = 91 := by decide
    have n34 : ¬ (Char.ofNat 91).toNat = 34 := by decide
    simp only [h91, n34, if_true, if_false]
    cases items with
    | nil =>
      simp only [marshalItems, Option.some.injEq] at hxs
      subst hxs
      show (match skipSpace (Char.ofNat 93 :: rest) with
        | [] => none
        | c2 :: rest2 =>
          if c2.toNat = 93 then some (GoValue.array [], rest2)
          else (parseElements f (c2 :: rest2)).map
            fun (p : List GoValue × List Char) => (GoValue.array p.1, p.2)) = _
      rw [skipSpace_cons (Char.ofNat 93) _ (by decide)]
      simp
    | cons v vs =>
      have hel := parseElements_marshal (v :: vs) xs f rest hxs
        (by simpa [GoValue.float64Exact] using hx) (by simp) (by omega)
      obtain ⟨a, as, ha⟩ : ∃ a as, xs = a :: as := by
        cases hv : marshal v with
        | none => simp [marshalItems, hv] at hxs
        | some a =>
          cases hvs : marshalItems vs with
          | none => simp [marshalItems, hv, hvs] at hxs
          | some as => exact ⟨a, as, by simpa [marshalItems, hv, hvs] using hxs.symm⟩
      have hva : marshal v = some a := by
        cases hv : marshal v with
        | none => simp [marshalItems, hv] at hxs
        | some a2 =>
          cases hvs : marshalItems vs with
          | none => simp [marshalItems, hv, hvs] at hxs
          | some as2 =>
            simp only [marshalItems, hv, hvs, Option.some.injEq, ha,
              List.cons.injEq] at hxs
            rw [hxs.1]
      obtain ⟨c, cs, hc, hstart⟩ := marshal_head v a hva
      have hfirst : ∃ tl, (",".intercalate xs).data ++ Char.ofNat 93 :: rest = c :: tl := by
        rw [ha]
        cases as with
        | nil => exact ⟨cs ++ Char.ofNat 93 :: rest, by rw [intercalate_single, hc]; rfl⟩
        | cons b bs => exact ⟨_, by rw [intercalate_cons_cons, hc]; rfl⟩
      obtain ⟨tl, htl⟩ := hfirst
      rw [htl] at hel ⊢
      rw [skipSpace_cons _ _ (isJsonSpace_of_start c hstart)]
      have n93 : ¬ c.toNat = 93 := by
        simp only [isValueStart, isDigit, Bool.or_eq_true, beq_iff_eq, Bool.and_eq_true,
          decide_eq_true_eq] at hstart
        omega
      simp only [n93, if_false, hel, Option.map_some']
      rfl
  | .object fields, text, fuel, rest, hm, hx, hd, _ => by
    simp only [marshal, Option.map_eq_some'] at hm
    obtain ⟨xs, hxs, rfl⟩ := hm
    have hd2 : depthFields fields + 1 ≤ fuel := by simpa [GoValue.depth] using hd
    obtain ⟨f, rfl⟩ : ∃ f, fuel = f + 1 := ⟨fuel - 1, by omega⟩
    have hdata : ("\x7b" ++ ",".intercalate xs ++ "\x7d").data ++ rest
        = Char.ofNat 123 :: ((",".intercalate xs).data ++ Char.ofNat 125 :: rest) := by
      simp [String.data_append]
    rw [hdata, parseValue, skipSpace_cons _ _ (by decide)]
    have h123 : (Char.ofNat 123).toNat = 123 := by decide
    have n34 : ¬ (Char.ofNat 123).toNat = 34 := by decide
    have n91 : ¬ (Char.ofNat 123).toNat = 91 := by decide
    simp only [h123, n34, n91, if_true, if_false]
    cases fields with
    | nil =>
      simp only [marshalFields, Option.some.injEq] at hxs
      subst hxs
      show (match skipSpace (Char.ofNat 125 :: rest) with
        | [] => none
        | c2 :: rest2 =>
          if c2.toNat = 125 then some (GoValue.object [], rest2)
          else (parseMembers f (c2 :: rest2)).map
            fun (p : List (String × GoValue) × List Char) => (GoValue.object p.1, p.2)) = _
      rw [skipSpace_cons (Char.ofNat 125) _ (by decide)]
      simp
    | cons kv kvs =>
      obtain ⟨k, v⟩ := kv
      have hel := parseMembers_marshal ((k, v) :: kvs) xs f rest hxs
        (by simpa [GoValue.float64Exact] using hx) (by simp) (by omega)
      obtain ⟨a, as, ha⟩ : ∃ a as, xs = (jsonString k ++ ":" ++ a) :: as := by
        cases hv : marshal v with
        | none => simp [marshalFields, hv] at hxs
        | some a =>
          cases hvs : marshalFields kvs with
          | none => simp [marshalFields, hv, hvs] at hxs
          | some as => exact ⟨a, as, by simpa [marshalFields, hv, hvs] using hxs.symm⟩
      have hfirst : ∃ tl,
          (",".intercalate xs).data ++ Char.ofNat 125 :: rest = Char.ofNat 34 :: tl := by
        rw [ha]
        cases as with
        | nil =>
          exact ⟨_, by
            rw [intercalate_single, String.data_append, String.data_append, jsonString_data]
            rfl⟩
        | cons b bs =>
          exact ⟨_, by
            rw [intercalate_cons_cons, String.data_append, String.data_append,
              jsonString_data]
            rfl⟩
      obtain ⟨tl, htl⟩ := hfirst
      rw [htl] at hel ⊢
      rw [skipSpace_cons _ _ (by decide)]
      have n125 : ¬ (Char.ofNat 34).toNat = 125 := by decide
      simp only [n125, if_false, hel, Option.map_some']
      rfl
  | .resourceFunc _, text, fuel, rest, hm, _, _, _ => by simp [marshal] at hm
  | .unsupported, text, fuel, rest, hm, _, _, _ => by simp [marshal] at hm
theorem parseElements_marshal : ∀ (items : List GoValue) (xs : List String) (fuel : Nat)
    (rest : List Char), marshalItems items = some xs → float64ExactItems items = true →
    items ≠ [] → depthItems items ≤ fuel →
    parseElements fuel ((",".intercalate xs).data ++ Char.ofNat 93 :: rest)
      = some (items, rest)
  | [], _, _, _, _, _, hne, _ => absurd rfl hne
  | v :: vs, xs, fuel, rest, hm, hx, _, hd => by
    have hxv : v.float64Exact = true := by
      simp only [float64ExactItems, Bool.and_eq_true] at hx
      exact hx.1
    have hxvs : float64ExactItems vs = true := by
      simp only [float64ExactItems, Bool.and_eq_true] at hx
      exact hx.2
    cases hv : marshal v with
    | none => simp [marshalItems, hv] at hm
    | some a =>
      cases hvs : marshalItems vs with
      | none => simp [marshalItems, hv, hvs] at hm
      | some as =>
        simp only [marshalItems, hv, hvs, Option.some.injEq] at hm
        subst hm
        have hd2 : max v.depth (depthItems vs) + 1 ≤ fuel := by simpa [depthItems] using hd
        obtain ⟨f, rfl⟩ : ∃ f, fuel = f + 1 := ⟨fuel - 1, by omega⟩
        have hdv : v.depth ≤ f := by omega
        have hdvs : depthItems vs ≤ f := by omega
        cases vs with
        | nil =>
          simp only [marshalItems, Option.some.injEq] at hvs
          subst hvs
          rw [intercalate_single, parseElements,
            parseValue_marshal v a f (Char.ofNat 93 :: rest) hv hxv hdv
              (delimited_cons (Char.ofNat 93) _ (by decide))]
          simp only [skipSpace_cons _ _ (show isJsonSpace (Char.ofNat 93) = false by decide)]
          have n44 : ¬ (Char.ofNat 93).toNat = 44 := by decide
          have h93 : (Char.ofNat 93).toNat = 93 := by decide
          simp only [n44, h93, if_true, if_false]
          rfl
        | cons w ws =>
          obtain ⟨b, bs, hb⟩ : ∃ b bs, as = b :: bs := by
            cases hw : marshal w with
            | none => simp [marshalItems, hw] at hvs
            | some b =>
              cases hws : marshalItems ws with
              | none => simp [marshalItems, hw, hws] at hvs
              | some bs => exact ⟨b, bs, by simpa [marshalItems, hw, hws] using hvs.symm⟩
          subst hb
          have ih := parseElements_marshal (w :: ws) (b :: bs) f rest hvs hxvs (by simp) hdvs
          rw [intercalate_cons_cons, List.append_assoc, List.cons_append, parseElements,
            parseValue_marshal v a f _ hv hxv hdv (delimited_cons (Char.ofNat 44) _ (by decide))]
          simp only [skipSpace_cons _ _ (show isJsonSpace (Char.ofNat 44) = false by decide)]
          have h44 : (Char.ofNat 44).toNat = 44 := by decide
          simp only [h44, if_true, ih, Option.map_some']
theorem parseMembers_marshal : ∀ (fields : List (String × GoValue)) (xs : List String)
    (fuel : Nat) (rest : List Char), marshalFields fields = some xs →
    float64ExactFields fields = true → fields ≠ [] → depthFields fields ≤ fuel →
    parseMembers fuel ((",".intercalate xs).data ++ Char.ofNat 125 :: rest)
      = some (fields, rest)
  | [], _, _, _, _, _, hne, _ => absurd rfl hne
  | (k, v) :: kvs, xs, fuel, rest, hm, hx, _, hd => by
    have hxv : v.float64Exact = true := by
      simp only [float64ExactFields, Bool.and_eq_true] at hx
      exact hx.1
    have hxvs : float64ExactFields kvs = true := by
      simp only [float64ExactFields, Bool.and_eq_true] at hx
      exact hx.2
    cases hv : marshal v with
    | none => simp [marshalFields, hv] at hm
    | some a =>
      cases hvs : marshalFields kvs with
      | none => simp [marshalFields, hv, hvs] at hm
      | some as =>
        simp only [marshalFields, hv, hvs, Option.some.injEq] at hm
        subst hm
        have hd2 : max v.depth (depthFields kvs) + 1 ≤ fuel := by
          simpa [depthFields] using hd
        obtain ⟨f, rfl⟩ : ∃ f, fuel = f + 1 := ⟨fuel - 1, by omega⟩
        have hdv : v.depth ≤ f := by omega
        have hdvs : depthFields kvs ≤ f := by omega
        have h34 : (Char.ofNat 34).toNat = 34 := by decide
        have h58 : (Char.ofNat 58).toNat = 58 := by decide
        have member : ∀ tail : List Char,
            (jsonString k ++ ":" ++ a).data ++ tail
              = Char.ofNat 34 :: ((jsonString k).data.tail
                  ++ Char.ofNat 58 :: (a.data ++ tail)) := by
          intro tail
          rw [String.data_append, String.data_append, jsonString_data]
          simp
        cases kvs with
        | nil =>
          simp only [marshalFields, Option.some.injEq] at hvs
          subst hvs
          rw [intercalate_single, member, parseMembers,
            skipSpace_cons _ _ (show isJsonSpace (Char.ofNat 34) = false by decide)]
          simp only [h34, if_true, unquote_jsonString,
            skipSpace_cons _ _ (show isJsonSpace (Char.ofNat 58) = false by decide), h58,
            parseValue_marshal v a f (Char.ofNat 125 :: rest) hv hxv hdv
              (delimited_cons (Char.ofNat 125) _ (by decide)),
            skipSpace_cons _ _ (show isJsonSpace (Char.ofNat 125) = false by decide)]
          have n44 : ¬ (Char.ofNat 125).toNat = 44 := by decide
          have h125 : (Char.ofNat 125).toNat = 125 := by decide
          simp only [n44, h125, if_true, if_false]
          rfl
        | cons w ws =>
          obtain ⟨b, bs, hb⟩ : ∃ b bs, as = b :: bs := by
            obtain ⟨k2, w2⟩ := w
            cases hw : marshal w2 with
            | none => simp [marshalFields, hw] at hvs
            | some b =>
              cases hws : marshalFields ws with
              | none => simp [marshalFields, hw, hws] at hvs
              | some bs =>
                exact ⟨_, bs, by simpa [marshalFields, hw, hws] using hvs.symm⟩
          subst hb
          have ih := parseMembers_marshal (w :: ws) (b :: bs) f rest hvs hxvs (by simp) hdvs
          rw [intercalate_cons_cons, List.append_assoc, List.cons_append, member,
            parseMembers,
            skipSpace_cons _ _ (show isJsonSpace (Char.ofNat 34) = false by decide)]
          simp only [h34, if_true, unquote_jsonString,
            skipSpace_cons _ _ (show isJsonSpace (Char.ofNat 58) = false by decide), h58,
            parseValue_marshal v a f _ hv hxv hdv (delimited_cons (Char.ofNat 44) _ (by decide)),
            skipSpace_cons _ _ (show isJsonSpace (Char.ofNat 44) = false by decide)]
          have h44 : (Char.ofNat 44).toNat = 44 := by decide
          simp only [h44, if_true, ih, Option.map_some']
end

theorem marshal_length_pos (v : GoValue) (text : String) (h : marshal v = some text) :
    1 ≤ text.data.length := by
  obtain ⟨c, cs, hc, _⟩ := marshal_head v text h
  rw [hc]; simp

theorem intercalate_length_cons (a : String) (as : List String) :
    (",".intercalate (a :: as)).data.length
      = a.data.length + (if as = [] then 0 else 1 + (",".intercalate as).data.length) := by
  cases as with
  | nil => simp [intercalate_single]
  | cons b bs => simp [intercalate_cons_cons]; omega

mutual
theorem depth_le_length : ∀ (v : GoValue) (text : String), marshal v = some text →
    v.depth ≤ text.data.length
  | .null, text, hm => by
    have := marshal_length_pos _ text hm
    simpa [GoValue.depth] using this
  | .bool b, text, hm => by
    have := marshal_length_pos _ text hm
    simpa [GoValue.depth] using this
  | .int i, text, hm => by
    have := marshal_length_pos _ text hm
    simpa [GoValue.depth] using this
  | .str s, text, hm => by
    have := marshal_length_pos _ text hm
    simpa [GoValue.depth] using this
  | .array items, text, hm => by
    simp only [marshal, Option.map_eq_some'] at hm
    obtain ⟨xs, hxs, rfl⟩ := hm
    have := depthItems_le_length items xs hxs
    simp only [GoValue.depth, String.data_append, List.length_append, List.length_cons,
      List.length_nil]
    omega
  | .object fields, text, hm => by
    simp only [marshal, Option.map_eq_some'] at hm
    obtain ⟨xs, hxs, rfl⟩ := hm
    have := depthFields_le_length fields xs hxs
    simp only [GoValue.depth, String.data_append, List.length_append, List.length_cons,
      List.length_nil]
    omega
  | .resourceFunc _, text, hm => by simp [marshal] at hm
  | .unsupported, text, hm => by simp [marshal] at hm
theorem depthItems_le_length : ∀ (items : List GoValue) (xs : List String),
    marshalItems items = some xs →
    depthItems items ≤ (",".intercalate xs).data.length + 1
  | [], _, _ => by simp [depthItems]
  | v :: vs, xs, hm => by
    cases hv : marshal v with
    | none => simp [marshalItems, hv] at hm
    | some a =>
      cases hvs : marshalItems vs with
      | none => simp [marshalItems, hv, hvs] at hm
      | some as =>
        simp only [marshalItems, hv, hvs, Option.some.injEq] at hm
        subst hm
        have h1 := depth_le_length v a hv
        have h2 := depthItems_le_length vs as hvs
        have h3 := marshal_length_pos v a hv
        rw [intercalate_length_cons]
        simp only [depthItems]
        by_cases he : as = []
        · subst he
          have : (",".intercalate ([] : List String)).data.length = 0 := rfl
          simp only [if_true]
          omega
        · simp only [he, if_false]
          omega
theorem depthFields_le_length : ∀ (fields : List (String × GoValue)) (xs : List String),
    marshalFields fields = some xs →
    depthFields fields ≤ (",".intercalate xs).data.length + 1
  | [], _, _ => by simp [depthFields]
  | (k, v) :: kvs, xs, hm => by
    cases hv : marshal v with
    | none => simp [marshalFields, hv] at hm
    | some a =>
      cases hvs : marshalFields kvs with
      | none => simp [marshalFields, hv, hvs] at hm
      | some as =>
        simp only [marshalFields, hv, hvs, Option.some.injEq] at hm
        subst hm
        have h1 := depth_le_length v a hv
        have h2 := depthFields_le_length kvs as hvs
        have h3 := marshal_length_pos v a hv
        rw [intercalate_length_cons]
        simp only [depthFields, String.data_append, List.length_append]
        by_cases he : as = []
        · subst he
          have : (",".intercalate ([] : List String)).data.length = 0 := rfl
          simp only [if_true]
          omega
        · simp only [he, if_false]
          omega
end

mutual
theorem marshal_of_encodable : ∀ (v : GoValue), v.encodable = true →
    ∃ text, marshal v = some text
  | .null, _ => ⟨_, rfl⟩
  | .bool _, _ => ⟨_, rfl⟩
  | .int _, _ => ⟨_, rfl⟩
  | .str _, _ => ⟨_, rfl⟩
  | .array items, h => by
    obtain ⟨xs, hxs⟩ := marshalItems_of_encodable items (by simpa [GoValue.encodable] using h)
    exact ⟨"[" ++ ",".intercalate xs ++ "]", by simp [marshal, hxs]⟩
  | .object fields, h => by
    obtain ⟨xs, hxs⟩ :=
      marshalFields_of_encodable fields (by simpa [GoValue.encodable] using h)
    exact ⟨"\x7b" ++ ",".intercalate xs ++ "\x7d", by simp [marshal, hxs]⟩
  | .resourceFunc _, h => by simp [GoValue.encodable] at h
  | .unsupported, h => by simp [GoValue.encodable] at h
theorem marshalItems_of_encodable : ∀ (items : List GoValue), encodableItems items = true →
    ∃ xs, marshalItems items = some xs
  | [], _ => ⟨[], rfl⟩
  | v :: vs, h => by
    simp only [encodableItems, Bool.and_eq_true] at h
    obtain ⟨a, ha⟩ := marshal_of_encodable v h.1
    obtain ⟨as, has⟩ := marshalItems_of_encodable vs h.2
    exact ⟨a :: as, by simp [marshalItems, ha, has]⟩
theorem marshalFields_of_encodable : ∀ (fields : List (String × GoValue)),
    encodableFields fields = true → ∃ xs, marshalFields fields = some xs
  | [], _ => ⟨[], rfl⟩
  | (k, v) :: kvs, h => by
    simp only [encodableFields, Bool.and_eq_true] at h
    obtain ⟨a, ha⟩ := marshal_of_encodable v h.1
    obtain ⟨as, has⟩ := marshalFields_of_encodable kvs h.2
    exact ⟨(jsonString k ++ ":" ++ a) :: as, by simp [marshalFields, ha, has]⟩
end

theorem decodeText_marshal (v : GoValue) (text : String) (h : marshal v = some text)
    (hx : v.float64Exact = true) : decodeText (text ++ "\n").data = some v := by
  have hdata : (text ++ "\n").data = text.data ++ [Char.ofNat 10] := by
    rw [String.data_append]
  have hd := depth_le_length v text h
  unfold decodeText
  rw [hdata, parseValue_marshal v text _ [Char.ofNat 10] h hx
    (by simp only [List.length_append]; omega) (delimited_cons (Char.ofNat 10) _ (by decide))]
  rfl

theorem Unmarshal_marshal (v : GoValue) (text : String) (h : marshal v = some text)
    (hx : v.float64Exact = true) : Unmarshal (bytes (text ++ "\n")) = some v := by
  simp only [Unmarshal, utf8Decode_bytes, decodeText_marshal v text h hx]

/-- C11 (amended): when a handler that passes validation returns a nil error and a value
that is neither a string, a resource function nor a reader and that `encoding/json` can
encode (a struct, map, slice or pointer to one, holding no function or channel), with
status `code`, then for `code ≤ 0` or `100 ≤ code ≤ 999` no panic occurs, the content type
is `application/json; charset=utf-8`, the status is `code` when `code > 0` and 200 when
`code ≤ 0`, the body is the JSON encoding of the value followed by the encoder's newline,
and decoding the body gives the value back when every integer in it is exactly
representable as a float64; for any other positive `code`, `WriteHeader` panics with
`invalid WriteHeader code` and no body byte is written. -/
theorem json_result_response (sniff : Bytes → String) (validators : Registry)
    (action : ActionFunc) (r : Request) (v : GoValue) (code : Int)
    (hval : (validate sniff validators action NewRecorder (paramHandler r) r.ctx).1 = true)
    (hcall : action.call (paramHandler r) r.ctx = (Result.other v, code, none))
    (henc : v.encodable = true) :
    ((code ≤ 0 ∨ (100 ≤ code ∧ code ≤ 999)) →
        (HandleAction sniff validators action NewRecorder r).1.panicked = none
        ∧ (HandleAction sniff validators action NewRecorder r).1.Result.Header.Get
            "Content-Type" = "application/json; charset=utf-8"
        ∧ (code > 0 →
            (HandleAction sniff validators action NewRecorder r).1.Result.StatusCode = code)
        ∧ (code ≤ 0 →
            (HandleAction sniff validators action NewRecorder r).1.Result.StatusCode = 200)
        ∧ (∃ text, marshal v = some text
            ∧ (HandleAction sniff validators action NewRecorder r).1.Result.Body
              = bytes (text ++ "\n"))
        ∧ (v.float64Exact = true →
            Unmarshal (HandleAction sniff validators action NewRecorder r).1.Result.Body
              = some v))
      ∧ ((0 < code ∧ (code < 100 ∨ 999 < code)) →
        (HandleAction sniff validators action NewRecorder r).1.panicked
            = some ("invalid WriteHeader code " ++ toString code)
        ∧ (HandleAction sniff validators action NewRecorder r).1.wroteHeader = false
        ∧ (HandleAction sniff validators action NewRecorder r).1.Body = []) := by
  obtain ⟨tr, hv⟩ := validate_pass sniff validators action NewRecorder _ _ hval
  obtain ⟨text, ht⟩ := marshal_of_encodable v henc
  have hH : (HandleAction sniff validators action NewRecorder r).1
      = ((NewRecorder.SetHeader "Content-Type" "application/json; charset=utf-8").WriteHeader
          (if code ≤ 0 then 200 else code)).Write sniff (bytes (text ++ "\n")) := by
    simp only [HandleAction, hv, hcall, ht, jsonEncode]
  constructor
  · intro hr
    have hbody : (HandleAction sniff validators action NewRecorder r).1.Result.Body
        = bytes (text ++ "\n") := by
      rw [hH]
      by_cases hc : code ≤ 0
      · simp [ResponseRecorder.Write, ResponseRecorder.WriteHeader,
          ResponseRecorder.SetHeader, NewRecorder, ResponseRecorder.Result, hc]
      · have h1 : ¬ code < 100 := by omega
        have h2 : ¬ 999 < code := by omega
        simp [ResponseRecorder.Write, ResponseRecorder.WriteHeader,
          ResponseRecorder.SetHeader, NewRecorder, ResponseRecorder.Result, hc, h1, h2]
    refine ⟨?_, ?_, ?_, ?_, ⟨text, ht, hbody⟩, ?_⟩
    · rw [hH]
      by_cases hc : code ≤ 0
      · simp [ResponseRecorder.Write, ResponseRecorder.WriteHeader,
          ResponseRecorder.SetHeader, NewRecorder, hc]
      · have h1 : ¬ code < 100 := by omega
        have h2 : ¬ 999 < code := by omega
        simp [ResponseRecorder.Write, ResponseRecorder.WriteHeader,
          ResponseRecorder.SetHeader, NewRecorder, hc, h1, h2]
    · rw [hH]
      by_cases hc : code ≤ 0
      · simp [ResponseRecorder.Write, ResponseRecorder.WriteHeader,
          ResponseRecorder.SetHeader, NewRecorder, ResponseRecorder.Result, Header.Get,
          Header.Set, hc]
      · have h1 : ¬ code < 100 := by omega
        have h2 : ¬ 999 < code := by omega
        simp [ResponseRecorder.Write, ResponseRecorder.WriteHeader,
          ResponseRecorder.SetHeader, NewRecorder, ResponseRecorder.Result, Header.Get,
          Header.Set, hc, h1, h2]
    · intro hc
      have h0 : ¬ code ≤ 0 := by omega
      have h1 : ¬ code < 100 := by omega
      have h2 : ¬ 999 < code := by omega
      have hne : code ≠ 0 := by omega
      rw [hH]
      simp [ResponseRecorder.Write, ResponseRecorder.WriteHeader, ResponseRecorder.SetHeader,
        NewRecorder, ResponseRecorder.Result, h0, h1, h2, hne]
    · intro hc
      rw [hH]
      simp [ResponseRecorder.Write, ResponseRecorder.WriteHeader, ResponseRecorder.SetHeader,
        NewRecorder, ResponseRecorder.Result, hc]
    · intro hx
      rw [hbody]
      exact Unmarshal_marshal v text ht hx
  · intro hr
    have hc : ¬ code ≤ 0 := by omega
    have h3 : code < 100 ∨ 999 < code := hr.2
    rw [hH]
    refine ⟨?_, ?_, ?_⟩
    · simp [ResponseRecorder.Write, ResponseRecorder.WriteHeader,
        ResponseRecorder.SetHeader, NewRecorder, hc, h3]
    · simp [ResponseRecorder.Write, ResponseRecorder.WriteHeader,
        ResponseRecorder.SetHeader, NewRecorder, hc, h3]
    · simp [ResponseRecorder.Write, ResponseRecorder.WriteHeader,
        ResponseRecorder.SetHeader, NewRecorder, hc, h3]

/-- C11, on the struct of `TestHandleActionStruct` (status 200) and the slice of
`TestHandleActionArray` (status given as 0): the bodies are `{"key":"test"}` and
`[123,456]`, each followed by a newline, the status is 200, and the bodies decode to the
values. -/
theorem json_result_response_witness :
    (HandleAction exampleSniff Registry.empty structAction NewRecorder
        exampleRequest).1.Result.Body = bytes "\x7b\"key\":\"test\"\x7d\n"
      ∧ responseBody
          (HandleAction exampleSniff Registry.empty structAction NewRecorder exampleRequest).1
        = bytes "\x7b\"key\":\"test\"\x7d"
      ∧ (HandleAction exampleSniff Registry.empty structAction NewRecorder
        exampleRequest).1.Result.StatusCode = 200
      ∧ Unmarshal (HandleAction exampleSniff Registry.empty structAction NewRecorder
        exampleRequest).1.Result.Body = some testStruct
      ∧ (HandleAction exampleSniff Registry.empty arrayAction NewRecorder
        exampleRequest).1.Result.Body = bytes "[123,456]\n"
      ∧ (HandleAction exampleSniff Registry.empty arrayAction NewRecorder
        exampleRequest).1.Result.StatusCode = 200
      ∧ Unmarshal (HandleAction exampleSniff Registry.empty arrayAction NewRecorder
        exampleRequest).1.Result.Body = some testArray :=
  have h := (json_result_response exampleSniff Registry.empty structAction exampleRequest
    testStruct 200 rfl rfl rfl).1 (Or.inr (by decide))
  have g := (json_result_response exampleSniff Registry.empty arrayAction exampleRequest
    testArray 0 rfl rfl rfl).1 (Or.inl (by decide))
  ⟨by decide, by decide, h.2.2.1 (by decide), h.2.2.2.2.2 rfl, by decide,
    g.2.2.2.1 (by decide), g.2.2.2.2.2 rfl⟩

/-- C11 as stated fails in three ways.  A slice holding a channel is answered with status
201, the JSON content type and an empty body, which does not decode.  A slice holding
2^53 + 1 is encoded exactly, but decoding the body gives 2^53.  A slice returned with
status 1000 makes `WriteHeader` panic, and no body byte is written. -/
theorem json_result_counterexamples :
    (channelSliceAction.call (paramHandler exampleRequest) exampleRequest.ctx
        = (Result.other channelSlice, 201, none)
      ∧ marshal channelSlice = none
      ∧ (HandleAction exampleSniff Registry.empty channelSliceAction NewRecorder
          exampleRequest).1.Result.StatusCode = 201
      ∧ (HandleAction exampleSniff Registry.empty channelSliceAction NewRecorder
          exampleRequest).1.Result.Body = []
      ∧ Unmarshal (HandleAction exampleSniff Registry.empty channelSliceAction NewRecorder
          exampleRequest).1.Result.Body = none)
      ∧ ((HandleAction exampleSniff Registry.empty bigIntSliceAction NewRecorder
          exampleRequest).1.Result.Body = bytes "[9007199254740993]\n"
        ∧ Unmarshal (HandleAction exampleSniff Registry.empty bigIntSliceAction NewRecorder
            exampleRequest).1.Result.Body
          = some (GoValue.array [GoValue.int 9007199254740992])
        ∧ Unmarshal (HandleAction exampleSniff Registry.empty bigIntSliceAction NewRecorder
            exampleRequest).1.Result.Body ≠ some bigIntSlice)
      ∧ ((HandleAction exampleSniff Registry.empty highCodeArrayAction NewRecorder
          exampleRequest).1.panicked = some "invalid WriteHeader code 1000"
        ∧ (HandleAction exampleSniff Registry.empty highCodeArrayAction NewRecorder
          exampleRequest).1.Result.Body = []) := by
  have hbig : Unmarshal (HandleAction exampleSniff Registry.empty bigIntSliceAction
      NewRecorder exampleRequest).1.Result.Body
      = some (GoValue.array [GoValue.int 9007199254740992]) := by rfl
  refine ⟨⟨rfl, rfl, by decide, by decide, by rfl⟩, ⟨by decide, hbig, ?_⟩,
    ⟨by decide, by decide⟩⟩
  rw [hbig]
  intro h
  simp [bigIntSlice] at h

end Resty
